import Mathlib

/-!
Verification development for the "ailce" context-curation engine.

The TypeScript sources are embedded shallowly:
* `src/utils/tokenUtils.ts` (`countTokensForText` with its heuristic fallback),
* `src/utils/chunkUtils.ts` (`chunkTextIntoTokenBatches`, `takeTailOverlapTokens`),
* the conversation store (`useContextStore`: `internalAssembleWithTotals`,
  the store operations, `buildSummarySource`, `generateSummary`).

External capabilities are parameters of the embedding:
* `tc : String → Nat` models the token counter (`countTokensForText`, whose
  tiktoken encoder is an external WASM capability),
* `dt : String → Int` models `new Date(s).getTime()` (timestamp parsing),
* `getChunks : List String → List AttachmentChunk` models
  `useAttachmentStore.getState().getChunksForAttachmentIds`.

JavaScript strings are modelled as Lean `String`, JS numbers occurring here as
`Nat` (all counts in the source are non-negative integers), and JS `undefined`
fields that the source always defaults (`|| 0`, `|| ''`) by those defaults.
-/

/-- JS `\s` whitespace class (the code points the sources actually use, plus
the common ASCII/Unicode members of the class). -/
def jsIsWs (c : Char) : Bool :=
  c = ' ' || c = '\t' || c = '\n' || c = '\r' ||
  c = '\x0b' || c = '\x0c' || c = ' ' || c = ' ' || c = ' ' ||
  c = '﻿' || c = '　'

/-- Build a string from a reversed character accumulator. -/
def strOfRev (acc : List Char) : String := String.mk acc.reverse

/-- Model of JS `String.prototype.trim` (drop leading and trailing `\s`). -/
def jsTrim (s : String) : String :=
  String.mk (((s.data.dropWhile jsIsWs).reverse.dropWhile jsIsWs).reverse)

/-- Worker for `splitWs`: single pass over the characters.  `acc` is the
reversed current piece, `inRun` records that we are inside a whitespace run
(whose left piece has already been emitted). -/
def splitRunsAux : List Char → List Char → Bool → List String
  | [], _, true => [""]
  | [], acc, false => [strOfRev acc]
  | c :: rest, acc, true =>
      if jsIsWs c then splitRunsAux rest acc true
      else splitRunsAux rest [c] false
  | c :: rest, acc, false =>
      if jsIsWs c then strOfRev acc :: splitRunsAux rest [] true
      else splitRunsAux rest (c :: acc) false

/-- Model of JS `text.split(/\s+/)`: split on maximal whitespace runs,
keeping the empty boundary pieces JS produces. -/
def splitWs (s : String) : List String := splitRunsAux s.data [] false

/-- Model of `text.replace(/\r\n?/g, '\n')`. -/
def normalizeEOL : List Char → List Char
  | [] => []
  | '\r' :: '\n' :: rest => '\n' :: normalizeEOL rest
  | '\r' :: rest => '\n' :: normalizeEOL rest
  | c :: rest => c :: normalizeEOL rest

/-- Worker for `splitParagraphs`: `pending` counts the newlines of the current
run; a run of length ≥ 2 splits, a single newline stays literal. -/
def splitParasAux : List Char → List Char → Nat → List String
  | [], acc, pending =>
      if 2 ≤ pending then [strOfRev acc, ""]
      else [strOfRev (List.replicate pending '\n' ++ acc)]
  | c :: rest, acc, pending =>
      if c = '\n' then splitParasAux rest acc (pending + 1)
      else if 2 ≤ pending then strOfRev acc :: splitParasAux rest [c] 0
      else splitParasAux rest (c :: (List.replicate pending '\n' ++ acc)) 0

/-- Model of JS `cleaned.split(/\n{2,}/g)`. -/
def splitParagraphs (s : String) : List String := splitParasAux s.data [] 0

/-- Is the character one of the sentence-ending marks of the chunker's regex. -/
def isSentPunct (c : Char) : Bool := c = '.' || c = '!' || c = '?'

/-- Worker for `splitSentences`: `prevPunct` records whether the previous
literal character was `[.!?]` (the lookbehind), `inRun` that we are consuming
a splitting whitespace run. -/
def splitSentAux : List Char → List Char → Bool → Bool → List String
  | [], _, _, true => [""]
  | [], acc, _, false => [strOfRev acc]
  | c :: rest, acc, prevPunct, true =>
      if jsIsWs c then splitSentAux rest acc prevPunct true
      else splitSentAux rest [c] (isSentPunct c) false
  | c :: rest, acc, prevPunct, false =>
      if jsIsWs c then
        if prevPunct then strOfRev acc :: splitSentAux rest [] false true
        else splitSentAux rest (c :: acc) false false
      else splitSentAux rest (c :: acc) (isSentPunct c) false

/-- Model of JS `para.split(/(?<=[.!?])\s+/)`. -/
def splitSentences (s : String) : List String := splitSentAux s.data [] false false

/-- The heuristic fallback of `countTokensForText` (`tokenUtils.ts`): trimmed
length divided by 4, rounded up, at least 1 for non-empty trimmed input. -/
def heuristicTokenCount (text : String) : Nat :=
  let rough := jsTrim text
  if rough = "" then 0 else max 1 ((rough.length + 3) / 4)

/-- `countTokensForText` (`tokenUtils.ts`): the tiktoken encoder is an external
capability, modelled as `encFor model text`, returning `none` when the encoder
throws and `some n` (the length of the token array) on success; the `catch`
branch is the heuristic fallback. -/
def countTokensForText (encFor : String → String → Option Nat)
    (text : String) (model : String) : Nat :=
  match encFor model text with
  | some n => n
  | none => heuristicTokenCount text

/-- C9: `countTokensForText` always returns a value (the embedding is total,
mirroring the `try`/`catch` that never lets the encoder throw to callers);
the result is a non-negative integer; on encoder failure it is exactly the
heuristic `max 1 ⌈trimmed.length / 4⌉`, which is at least 1 whenever the
trimmed text is non-empty and 0 when the text is empty or whitespace-only. -/
theorem countTokensForText_total_fallback
    (encFor : String → String → Option Nat) (text model : String) :
    0 ≤ countTokensForText encFor text model
    ∧ (encFor model text = none →
        countTokensForText encFor text model = heuristicTokenCount text)
    ∧ (encFor model text = none → jsTrim text ≠ "" →
        1 ≤ countTokensForText encFor text model)
    ∧ (encFor model text = none → jsTrim text = "" →
        countTokensForText encFor text model = 0) := by
  refine ⟨Nat.zero_le _, ?_, ?_, ?_⟩
  · intro h; simp [countTokensForText, h]
  · intro h hne
    simp [countTokensForText, h, heuristicTokenCount, hne]
  · intro h he
    simp [countTokensForText, h, heuristicTokenCount, he]

/-- Witness for C9 at a concrete encoder failure and a concrete text. -/
theorem countTokensForText_total_fallback_witness :
    (fun _ _ => (none : Option Nat)) "gpt-4o-mini" "  hi  " = none
    ∧ jsTrim "  hi  " ≠ ""
    ∧ 1 ≤ countTokensForText (fun _ _ => none) "  hi  " "gpt-4o-mini"
    ∧ countTokensForText (fun _ _ => none) "   " "gpt-4o-mini" = 0 := by
  refine ⟨rfl, by decide, ?_, ?_⟩
  · exact (countTokensForText_total_fallback (fun _ _ => none) "  hi  "
      "gpt-4o-mini").2.2.1 rfl (by decide)
  · exact (countTokensForText_total_fallback (fun _ _ => none) "   "
      "gpt-4o-mini").2.2.2 rfl (by decide)

/-! ## Chunker (`chunkUtils.ts`)

`tc` is the token counter capability (`countTokensForText` at the default
model).  The accumulator state mirrors the three mutable locals `chunks`,
`current`, `currentTokens`; `pushChunk` mirrors the closure of the same name.
-/

/-- `current.join('\n\n')`. -/
def joinParas (parts : List String) : String := String.intercalate "\n\n" parts

structure ChunkSt where
  chunks : List String
  current : List String
  currentTokens : Nat
deriving DecidableEq

/-- The `pushChunk` closure: append the joined current parts, if any. -/
def pushChunk (st : ChunkSt) : ChunkSt :=
  if st.current = [] then st
  else { st with chunks := st.chunks ++ [joinParas st.current] }

/-- `takeTailOverlapTokens` scans suffixes of the `/\s+/`-split words from the
shortest, returning the first whose space-join reaches `overlapTokens`.
`remaining` counts the candidates still to try; candidate `m + 1 ↦ drop m`. -/
def takeTailScan (tc : String → Nat) (parts : List String) (overlapTokens : Nat) :
    Nat → String
  | 0 => ""
  | m + 1 =>
      if overlapTokens ≤ tc (String.intercalate " " (parts.drop m)) then
        String.intercalate " " (parts.drop m)
      else takeTailScan tc parts overlapTokens m

/-- `takeTailOverlapTokens` (`chunkUtils.ts`). -/
def takeTailOverlapTokens (tc : String → Nat) (text : String)
    (overlapTokens : Nat) : String :=
  if overlapTokens = 0 then ""
  else takeTailScan tc (splitWs text) overlapTokens (splitWs text).length

/-- Install a freshly seeded `current` buffer after closing a chunk. -/
def seedWith (tc : String → Nat) (back : String) (st : ChunkSt) : ChunkSt :=
  if back = "" then { st with current := [], currentTokens := 0 }
  else { st with current := [back], currentTokens := tc back }

/-- The duplicated reseed block: close the chunk, then either seed the next
buffer with the tail of the chunk just closed (`overlapTokens > 0`) or start
empty. -/
def closeAndSeed (tc : String → Nat) (overlapTokens : Nat) (st : ChunkSt) :
    ChunkSt :=
  if 0 < overlapTokens ∧ (pushChunk st).chunks ≠ [] then
    seedWith tc
      (takeTailOverlapTokens tc ((pushChunk st).chunks.getLastD "") overlapTokens)
      (pushChunk st)
  else { pushChunk st with current := [], currentTokens := 0 }

/-- `current.push(part); currentTokens += t`. -/
def appendPart (st : ChunkSt) (part : String) (t : Nat) : ChunkSt :=
  { st with current := st.current ++ [part], currentTokens := st.currentTokens + t }

/-- One packing step: flush when adding `t` tokens would exceed the budget and
the buffer is non-empty, then append the part unconditionally. -/
def stepPart (tc : String → Nat) (maxTokens overlapTokens : Nat)
    (st : ChunkSt) (part : String) (t : Nat) : ChunkSt :=
  if maxTokens < st.currentTokens + t ∧ st.current ≠ [] then
    appendPart (closeAndSeed tc overlapTokens st) part t
  else appendPart st part t

/-- One paragraph of the main loop: oversized paragraphs are sentence-split
and packed sentence by sentence, others are packed whole. -/
def stepPara (tc : String → Nat) (maxTokens overlapTokens : Nat)
    (st : ChunkSt) (para : String) : ChunkSt :=
  if maxTokens < tc para then
    (splitSentences para).foldl
      (fun s sent => stepPart tc maxTokens overlapTokens s sent (tc sent)) st
  else stepPart tc maxTokens overlapTokens st para (tc para)

/-- `chunkTextIntoTokenBatches` (`chunkUtils.ts`). -/
def chunkTextIntoTokenBatches (tc : String → Nat) (text : String)
    (maxTokens overlapTokens : Nat) : List String :=
  if jsTrim (String.mk (normalizeEOL text.data)) = "" then []
  else
    (pushChunk (((((splitParagraphs (jsTrim (String.mk (normalizeEOL
        text.data)))).map jsTrim).filter (· ≠ ""))).foldl
      (stepPara tc maxTokens overlapTokens)
      { chunks := [], current := [], currentTokens := 0 })).chunks

/-! ### Instrumented chunker

`chunkParts` is the same algorithm keeping each chunk as its list of parts,
each part tagged with whether it entered as an overlap seed (`true`) or as a
packed paragraph/sentence (`false`).  `chunkTextIntoTokenBatches` is proved to
be its rendering, so properties of the joined chunks can be read off the
instrumented run. -/

/-- A chunk part: the flag marks an overlap seed. -/
abbrev ChunkPart := Bool × String

/-- Render a part list back to the chunk text the source produces. -/
def renderParts (ps : List ChunkPart) : String := joinParas (ps.map Prod.snd)

structure ChunkStT where
  chunks : List (List ChunkPart)
  current : List ChunkPart
  currentTokens : Nat
deriving DecidableEq

def pushChunkT (st : ChunkStT) : ChunkStT :=
  if st.current = [] then st
  else { st with chunks := st.chunks ++ [st.current] }

def seedWithT (tc : String → Nat) (back : String) (st : ChunkStT) : ChunkStT :=
  if back = "" then { st with current := [], currentTokens := 0 }
  else { st with current := [(true, back)], currentTokens := tc back }

def closeAndSeedT (tc : String → Nat) (overlapTokens : Nat) (st : ChunkStT) :
    ChunkStT :=
  if 0 < overlapTokens ∧ (pushChunkT st).chunks ≠ [] then
    seedWithT tc
      (takeTailOverlapTokens tc (renderParts ((pushChunkT st).chunks.getLastD []))
        overlapTokens)
      (pushChunkT st)
  else { pushChunkT st with current := [], currentTokens := 0 }

def appendPartT (st : ChunkStT) (part : ChunkPart) (t : Nat) : ChunkStT :=
  { st with current := st.current ++ [part], currentTokens := st.currentTokens + t }

def stepPartT (tc : String → Nat) (maxTokens overlapTokens : Nat)
    (st : ChunkStT) (part : String) (t : Nat) : ChunkStT :=
  if maxTokens < st.currentTokens + t ∧ st.current ≠ [] then
    appendPartT (closeAndSeedT tc overlapTokens st) (false, part) t
  else appendPartT st (false, part) t

def stepParaT (tc : String → Nat) (maxTokens overlapTokens : Nat)
    (st : ChunkStT) (para : String) : ChunkStT :=
  if maxTokens < tc para then
    (splitSentences para).foldl
      (fun s sent => stepPartT tc maxTokens overlapTokens s sent (tc sent)) st
  else stepPartT tc maxTokens overlapTokens st para (tc para)

/-- The instrumented chunker. -/
def chunkParts (tc : String → Nat) (text : String)
    (maxTokens overlapTokens : Nat) : List (List ChunkPart) :=
  if jsTrim (String.mk (normalizeEOL text.data)) = "" then []
  else
    (pushChunkT (((((splitParagraphs (jsTrim (String.mk (normalizeEOL
        text.data)))).map jsTrim).filter (· ≠ ""))).foldl
      (stepParaT tc maxTokens overlapTokens)
      { chunks := [], current := [], currentTokens := 0 })).chunks

/-- Simulation relation between the source state and the instrumented state. -/
def ChunkRel (st : ChunkSt) (stT : ChunkStT) : Prop :=
  st.chunks = stT.chunks.map renderParts
  ∧ st.current = stT.current.map Prod.snd
  ∧ st.currentTokens = stT.currentTokens

theorem getLastD_map {α β : Type} (f : α → β) (l : List α) (d : α) :
    (l.map f).getLastD (f d) = f (l.getLastD d) := by
  induction l with
  | nil => rfl
  | cons a l ih =>
    cases l with
    | nil => rfl
    | cons b l' => simpa using ih

theorem chunkRel_pushChunk {st : ChunkSt} {stT : ChunkStT}
    (h : ChunkRel st stT) : ChunkRel (pushChunk st) (pushChunkT stT) := by
  obtain ⟨h1, h2, h3⟩ := h
  unfold pushChunk pushChunkT
  by_cases hc : stT.current = []
  · have hc' : st.current = [] := by rw [h2, hc]; rfl
    rw [if_pos hc, if_pos hc']
    exact ⟨h1, h2, h3⟩
  · have hc' : st.current ≠ [] := by
      rw [h2]; exact fun hx => hc (List.map_eq_nil_iff.mp hx)
    rw [if_neg hc, if_neg hc']
    refine ⟨?_, h2, h3⟩
    simp [h1, renderParts, h2]

theorem chunkRel_closeAndSeed (tc : String → Nat) (overlapTokens : Nat)
    {st : ChunkSt} {stT : ChunkStT} (h : ChunkRel st stT) :
    ChunkRel (closeAndSeed tc overlapTokens st)
      (closeAndSeedT tc overlapTokens stT) := by
  obtain ⟨h1, h2, h3⟩ := chunkRel_pushChunk h
  have hemp : renderParts ([] : List ChunkPart) = "" := rfl
  have hlast : (pushChunk st).chunks.getLastD "" =
      renderParts ((pushChunkT stT).chunks.getLastD []) := by
    rw [h1, ← hemp, getLastD_map]
  unfold closeAndSeed closeAndSeedT
  by_cases hne : (pushChunkT stT).chunks = []
  · have hne' : (pushChunk st).chunks = [] := by rw [h1, hne]; rfl
    have c1 : ¬(0 < overlapTokens ∧ (pushChunk st).chunks ≠ []) :=
      fun hcon => hcon.2 hne'
    have c2 : ¬(0 < overlapTokens ∧ (pushChunkT stT).chunks ≠ []) :=
      fun hcon => hcon.2 hne
    rw [if_neg c1, if_neg c2]
    exact ⟨h1, rfl, rfl⟩
  · have hne' : (pushChunk st).chunks ≠ [] := by
      rw [h1]; exact fun hx => hne (List.map_eq_nil_iff.mp hx)
    by_cases hov : 0 < overlapTokens
    · have c1 : 0 < overlapTokens ∧ (pushChunk st).chunks ≠ [] := ⟨hov, hne'⟩
      have c2 : 0 < overlapTokens ∧ (pushChunkT stT).chunks ≠ [] := ⟨hov, hne⟩
      rw [if_pos c1, if_pos c2, hlast]
      unfold seedWith seedWithT
      by_cases hbe : takeTailOverlapTokens tc
          (renderParts ((pushChunkT stT).chunks.getLastD [])) overlapTokens = ""
      · rw [if_pos hbe, if_pos hbe]
        exact ⟨h1, rfl, rfl⟩
      · rw [if_neg hbe, if_neg hbe]
        exact ⟨h1, rfl, rfl⟩
    · have c1 : ¬(0 < overlapTokens ∧ (pushChunk st).chunks ≠ []) :=
        fun hcon => hov hcon.1
      have c2 : ¬(0 < overlapTokens ∧ (pushChunkT stT).chunks ≠ []) :=
        fun hcon => hov hcon.1
      rw [if_neg c1, if_neg c2]
      exact ⟨h1, rfl, rfl⟩

theorem chunkRel_appendPart {st : ChunkSt} {stT : ChunkStT}
    (h : ChunkRel st stT) (part : String) (t : Nat) :
    ChunkRel (appendPart st part t) (appendPartT stT (false, part) t) := by
  obtain ⟨h1, h2, h3⟩ := h
  exact ⟨h1, by simp [appendPart, appendPartT, h2], by
    simp [appendPart, appendPartT, h3]⟩

theorem chunkRel_stepPart (tc : String → Nat) (maxTokens overlapTokens : Nat)
    {st : ChunkSt} {stT : ChunkStT} (h : ChunkRel st stT)
    (part : String) (t : Nat) :
    ChunkRel (stepPart tc maxTokens overlapTokens st part t)
      (stepPartT tc maxTokens overlapTokens stT part t) := by
  obtain ⟨h1, h2, h3⟩ := h
  unfold stepPart stepPartT
  by_cases hfl : maxTokens < stT.currentTokens + t ∧ stT.current ≠ []
  · have hfl' : maxTokens < st.currentTokens + t ∧ st.current ≠ [] := by
      refine ⟨by rw [h3]; exact hfl.1, ?_⟩
      rw [h2]; exact fun hx => hfl.2 (List.map_eq_nil_iff.mp hx)
    rw [if_pos hfl', if_pos hfl]
    exact chunkRel_appendPart
      (chunkRel_closeAndSeed tc overlapTokens ⟨h1, h2, h3⟩) part t
  · have hfl' : ¬(maxTokens < st.currentTokens + t ∧ st.current ≠ []) := by
      intro hcon
      refine hfl ⟨by rw [← h3]; exact hcon.1, ?_⟩
      intro hx
      exact hcon.2 (by rw [h2, hx]; rfl)
    rw [if_neg hfl', if_neg hfl]
    exact chunkRel_appendPart ⟨h1, h2, h3⟩ part t

theorem chunkRel_foldlPart (tc : String → Nat) (maxTokens overlapTokens : Nat) :
    ∀ (ss : List String) {st : ChunkSt} {stT : ChunkStT}, ChunkRel st stT →
      ChunkRel
        (ss.foldl (fun s sent =>
          stepPart tc maxTokens overlapTokens s sent (tc sent)) st)
        (ss.foldl (fun s sent =>
          stepPartT tc maxTokens overlapTokens s sent (tc sent)) stT)
  | [], _, _, h => h
  | s :: ss, _, _, h =>
      chunkRel_foldlPart tc maxTokens overlapTokens ss
        (chunkRel_stepPart tc maxTokens overlapTokens h s (tc s))

theorem chunkRel_stepPara (tc : String → Nat) (maxTokens overlapTokens : Nat)
    {st : ChunkSt} {stT : ChunkStT} (h : ChunkRel st stT) (para : String) :
    ChunkRel (stepPara tc maxTokens overlapTokens st para)
      (stepParaT tc maxTokens overlapTokens stT para) := by
  unfold stepPara stepParaT
  by_cases hb : maxTokens < tc para
  · rw [if_pos hb, if_pos hb]
    exact chunkRel_foldlPart tc maxTokens overlapTokens (splitSentences para) h
  · rw [if_neg hb, if_neg hb]
    exact chunkRel_stepPart tc maxTokens overlapTokens h para (tc para)

theorem chunkRel_foldl (tc : String → Nat) (maxTokens overlapTokens : Nat) :
    ∀ (ps : List String) {st : ChunkSt} {stT : ChunkStT}, ChunkRel st stT →
      ChunkRel (ps.foldl (stepPara tc maxTokens overlapTokens) st)
        (ps.foldl (stepParaT tc maxTokens overlapTokens) stT)
  | [], _, _, h => h
  | p :: ps, _, _, h =>
      chunkRel_foldl tc maxTokens overlapTokens ps
        (chunkRel_stepPara tc maxTokens overlapTokens h p)

/-- `chunkTextIntoTokenBatches` is the rendering of the instrumented run. -/
theorem chunk_eq_renderParts (tc : String → Nat) (text : String)
    (maxTokens overlapTokens : Nat) :
    chunkTextIntoTokenBatches tc text maxTokens overlapTokens =
      (chunkParts tc text maxTokens overlapTokens).map renderParts := by
  unfold chunkTextIntoTokenBatches chunkParts
  by_cases hc : jsTrim (String.mk (normalizeEOL text.data)) = ""
  · rw [if_pos hc, if_pos hc]; rfl
  · rw [if_neg hc, if_neg hc]
    exact (chunkRel_pushChunk
      (chunkRel_foldl tc maxTokens overlapTokens _ ⟨rfl, rfl, rfl⟩)).1

/-! ### Chunk token budget (C2) -/

/-- Sum of the token counts of a chunk's parts, as the loop accumulates them. -/
def sumTc (tc : String → Nat) (ps : List ChunkPart) : Nat :=
  (ps.map (fun p => tc p.2)).sum

/-- A chunk respects the budget discipline: its accumulated part-token sum is
within `maxTokens`, or it is a single sentence that alone exceeds the budget,
or it contains an overlap seed. -/
def BudgetOK (tc : String → Nat) (maxTokens : Nat) (ps : List ChunkPart) : Prop :=
  sumTc tc ps ≤ maxTokens
  ∨ (∃ s, ps = [(false, s)] ∧ maxTokens < tc s)
  ∨ (∃ p ∈ ps, p.1 = true)

/-- Loop invariant: `currentTokens` is the part-token sum of the buffer, and
the buffer and all closed chunks respect the budget discipline. -/
def BudgetInv (tc : String → Nat) (maxTokens : Nat) (st : ChunkStT) : Prop :=
  st.currentTokens = sumTc tc st.current
  ∧ BudgetOK tc maxTokens st.current
  ∧ ∀ ps ∈ st.chunks, BudgetOK tc maxTokens ps

theorem budgetInv_pushChunkT {tc : String → Nat} {maxTokens : Nat}
    {st : ChunkStT} (h : BudgetInv tc maxTokens st) :
    BudgetInv tc maxTokens (pushChunkT st) := by
  obtain ⟨h1, h2, h3⟩ := h
  unfold pushChunkT
  by_cases hc : st.current = []
  · rw [if_pos hc]; exact ⟨h1, h2, h3⟩
  · rw [if_neg hc]
    refine ⟨h1, h2, ?_⟩
    intro ps hps
    rcases List.mem_append.mp hps with hin | hin
    · exact h3 ps hin
    · rw [List.mem_singleton.mp hin]; exact h2

theorem budgetInv_closeAndSeedT {tc : String → Nat} {maxTokens : Nat}
    (overlapTokens : Nat) {st : ChunkStT} (h : BudgetInv tc maxTokens st) :
    BudgetInv tc maxTokens (closeAndSeedT tc overlapTokens st) := by
  obtain ⟨p1, p2, p3⟩ := budgetInv_pushChunkT h
  unfold closeAndSeedT
  by_cases hcond : 0 < overlapTokens ∧ (pushChunkT st).chunks ≠ []
  · rw [if_pos hcond]
    unfold seedWithT
    by_cases hbe : takeTailOverlapTokens tc
        (renderParts ((pushChunkT st).chunks.getLastD [])) overlapTokens = ""
    · rw [if_pos hbe]
      exact ⟨rfl, Or.inl (Nat.zero_le _), p3⟩
    · rw [if_neg hbe]
      refine ⟨by simp [sumTc], ?_, p3⟩
      exact Or.inr (Or.inr ⟨(true, _), List.mem_singleton.mpr rfl, rfl⟩)
  · rw [if_neg hcond]
    exact ⟨rfl, Or.inl (Nat.zero_le _), p3⟩

theorem budgetInv_stepPartT (tc : String → Nat) (maxTokens overlapTokens : Nat)
    {st : ChunkStT} (h : BudgetInv tc maxTokens st) (part : String) :
    BudgetInv tc maxTokens
      (stepPartT tc maxTokens overlapTokens st part (tc part)) := by
  obtain ⟨h1, h2, h3⟩ := h
  unfold stepPartT
  by_cases hfl : maxTokens < st.currentTokens + tc part ∧ st.current ≠ []
  · rw [if_pos hfl]
    obtain ⟨g1, g2, g3⟩ :=
      budgetInv_closeAndSeedT overlapTokens (⟨h1, h2, h3⟩ : BudgetInv tc maxTokens st)
    set st' := closeAndSeedT tc overlapTokens st with hst'
    have hsum : sumTc tc (st'.current ++ [(false, part)]) =
        sumTc tc st'.current + tc part := by
      simp [sumTc]
    refine ⟨by simp [appendPartT, g1, hsum], ?_, g3⟩
    -- budget discipline for the new buffer
    rcases g2 with hle | ⟨s, hs, hgt⟩ | ⟨p, hp, htag⟩
    · by_cases hcur : st'.current = []
      · by_cases hbig : maxTokens < tc part
        · exact Or.inr (Or.inl ⟨part, by simp [appendPartT, hcur], hbig⟩)
        · refine Or.inl ?_
          show sumTc tc (appendPartT st' (false, part) (tc part)).current ≤ maxTokens
          simp only [appendPartT]
          simp only [hcur]
          simpa [sumTc] using Nat.le_of_not_lt hbig
      · -- non-empty, within budget: the only way it got its parts while
        -- non-empty is that the flush guard did not fire... but here we are
        -- after a flush, so st'.current is [] or a singleton seed; the seed
        -- case is covered below, so this case is the empty one or the sum
        -- stays provable only via the seed disjunct.  We show the seed
        -- disjunct cannot be avoided: st'.current after closeAndSeedT is []
        -- or [(true, back)], so hcur forces the seed shape.
        have hshape : st'.current = [] ∨ ∃ b, st'.current = [(true, b)] := by
          rw [hst']
          unfold closeAndSeedT
          by_cases hcond : 0 < overlapTokens ∧ (pushChunkT st).chunks ≠ []
          · rw [if_pos hcond]
            unfold seedWithT
            by_cases hbe : takeTailOverlapTokens tc
                (renderParts ((pushChunkT st).chunks.getLastD []))
                overlapTokens = ""
            · rw [if_pos hbe]; exact Or.inl rfl
            · rw [if_neg hbe]; exact Or.inr ⟨_, rfl⟩
          · rw [if_neg hcond]; exact Or.inl rfl
        rcases hshape with hsh | ⟨b, hsh⟩
        · exact absurd hsh hcur
        · refine Or.inr (Or.inr ⟨(true, b), ?_, rfl⟩)
          simp [appendPartT, hsh]
    · -- an oversized singleton buffer straight after a flush is impossible,
      -- but we do not need that: the singleton is `(false, s)`, while the
      -- buffer after closeAndSeedT is empty or a seed singleton.
      have hshape : st'.current = [] ∨ ∃ b, st'.current = [(true, b)] := by
        rw [hst']
        unfold closeAndSeedT
        by_cases hcond : 0 < overlapTokens ∧ (pushChunkT st).chunks ≠ []
        · rw [if_pos hcond]
          unfold seedWithT
          by_cases hbe : takeTailOverlapTokens tc
              (renderParts ((pushChunkT st).chunks.getLastD []))
              overlapTokens = ""
          · rw [if_pos hbe]; exact Or.inl rfl
          · rw [if_neg hbe]; exact Or.inr ⟨_, rfl⟩
        · rw [if_neg hcond]; exact Or.inl rfl
      rcases hshape with hsh | ⟨b, hsh⟩
      · rw [hsh] at hs; exact absurd hs (by simp)
      · rw [hsh] at hs; exact absurd hs (by simp)
    · refine Or.inr (Or.inr ⟨p, ?_, htag⟩)
      simp only [appendPartT]
      exact List.mem_append.mpr (Or.inl hp)
  · rw [if_neg hfl]
    have hsum : sumTc tc (st.current ++ [(false, part)]) =
        sumTc tc st.current + tc part := by
      simp [sumTc]
    refine ⟨by simp [appendPartT, h1, hsum], ?_, h3⟩
    by_cases hcur : st.current = []
    · have hzero : st.currentTokens = 0 := by rw [h1, hcur]; rfl
      by_cases hbig : maxTokens < tc part
      · exact Or.inr (Or.inl ⟨part, by simp [appendPartT, hcur], hbig⟩)
      · refine Or.inl ?_
        show sumTc tc (appendPartT st (false, part) (tc part)).current ≤ maxTokens
        simp only [appendPartT, hsum, hcur]
        simpa [sumTc] using Nat.le_of_not_lt hbig
    · have hle : st.currentTokens + tc part ≤ maxTokens := by
        rcases Nat.lt_or_ge maxTokens (st.currentTokens + tc part) with hx | hx
        · exact absurd ⟨hx, hcur⟩ hfl
        · exact hx
      refine Or.inl ?_
      show sumTc tc (appendPartT st (false, part) (tc part)).current ≤ maxTokens
      simp only [appendPartT, hsum]
      rw [← h1]
      exact hle

theorem budgetInv_foldlPart (tc : String → Nat) (maxTokens overlapTokens : Nat) :
    ∀ (ss : List String) {st : ChunkStT}, BudgetInv tc maxTokens st →
      BudgetInv tc maxTokens
        (ss.foldl (fun s sent =>
          stepPartT tc maxTokens overlapTokens s sent (tc sent)) st)
  | [], _, h => h
  | s :: ss, _, h =>
      budgetInv_foldlPart tc maxTokens overlapTokens ss
        (budgetInv_stepPartT tc maxTokens overlapTokens h s)

theorem budgetInv_stepParaT (tc : String → Nat) (maxTokens overlapTokens : Nat)
    {st : ChunkStT} (h : BudgetInv tc maxTokens st) (para : String) :
    BudgetInv tc maxTokens (stepParaT tc maxTokens overlapTokens st para) := by
  unfold stepParaT
  by_cases hb : maxTokens < tc para
  · rw [if_pos hb]
    exact budgetInv_foldlPart tc maxTokens overlapTokens (splitSentences para) h
  · rw [if_neg hb]
    exact budgetInv_stepPartT tc maxTokens overlapTokens h para

theorem budgetInv_foldl (tc : String → Nat) (maxTokens overlapTokens : Nat) :
    ∀ (ps : List String) {st : ChunkStT}, BudgetInv tc maxTokens st →
      BudgetInv tc maxTokens
        (ps.foldl (stepParaT tc maxTokens overlapTokens) st)
  | [], _, h => h
  | p :: ps, _, h =>
      budgetInv_foldl tc maxTokens overlapTokens ps
        (budgetInv_stepParaT tc maxTokens overlapTokens h p)

/-- Every chunk of the instrumented run respects the budget discipline. -/
theorem chunkParts_budget (tc : String → Nat) (text : String)
    (maxTokens overlapTokens : Nat) :
    ∀ ps ∈ chunkParts tc text maxTokens overlapTokens,
      BudgetOK tc maxTokens ps := by
  unfold chunkParts
  by_cases hc : jsTrim (String.mk (normalizeEOL text.data)) = ""
  · rw [if_pos hc]; intro ps hps; cases hps
  · rw [if_neg hc]
    have hinit : BudgetInv tc maxTokens
        { chunks := [], current := [], currentTokens := 0 } :=
      ⟨rfl, Or.inl (Nat.zero_le _), fun ps hps => by cases hps⟩
    exact (budgetInv_pushChunkT
      (budgetInv_foldl tc maxTokens overlapTokens _ hinit)).2.2

/-- The paragraphs the chunker packs (after normalization, trim and split). -/
def paragraphsOf (text : String) : List String :=
  ((splitParagraphs (jsTrim (String.mk (normalizeEOL text.data)))).map
    jsTrim).filter (· ≠ "")

/-- C2 (corrected): with the heuristic token counter, the input
`"aaaaaaaa\n\nbbbbbbbb"` and `maxTokens = 4`, `overlapTokens = 0`, the chunker
returns the single chunk `"aaaaaaaa\n\nbbbbbbbb"` whose token count is 5 > 4,
although every paragraph and every sentence of the input counts ≤ 4 tokens
(the `\n\n` join separator is never counted by the packing loop); the second
instance shows the same violation with `overlapTokens = 2` caused by the
overlap seed. -/
theorem chunk_budget_claim_cex :
    chunkTextIntoTokenBatches heuristicTokenCount "aaaaaaaa\n\nbbbbbbbb" 4 0 =
      ["aaaaaaaa\n\nbbbbbbbb"]
    ∧ 4 < heuristicTokenCount "aaaaaaaa\n\nbbbbbbbb"
    ∧ (∀ p ∈ paragraphsOf "aaaaaaaa\n\nbbbbbbbb", heuristicTokenCount p ≤ 4
        ∧ ∀ s ∈ splitSentences p, heuristicTokenCount s ≤ 4)
    ∧ chunkTextIntoTokenBatches heuristicTokenCount "aaaaaaaa\n\nbbbbbbbb" 2 2 =
      ["aaaaaaaa", "aaaaaaaa\n\nbbbbbbbb"]
    ∧ 2 < heuristicTokenCount "aaaaaaaa\n\nbbbbbbbb"
    ∧ (∀ p ∈ paragraphsOf "aaaaaaaa\n\nbbbbbbbb", heuristicTokenCount p ≤ 2
        ∧ ∀ s ∈ splitSentences p, heuristicTokenCount s ≤ 2) := by
  exact ⟨by decide, by decide, by decide, by decide, by decide, by decide⟩

/-- C2 (amended): the chunker's budget discipline, measured as the loop
measures it: every produced chunk is the `\n\n`-join of its packed parts, and
the sum of the parts' individual token counts is at most `maxTokens`, except
for a chunk that is a single sentence alone exceeding `maxTokens`, or a chunk
seeded with a tail-overlap of the previous chunk (`overlapTokens > 0`). -/
theorem chunk_budget_partSum (tc : String → Nat) (text : String)
    (maxTokens overlapTokens : Nat) :
    chunkTextIntoTokenBatches tc text maxTokens overlapTokens =
      (chunkParts tc text maxTokens overlapTokens).map renderParts
    ∧ ∀ ps ∈ chunkParts tc text maxTokens overlapTokens,
        sumTc tc ps ≤ maxTokens
        ∨ (∃ s, ps = [(false, s)] ∧ maxTokens < tc s)
        ∨ (∃ p ∈ ps, p.1 = true) :=
  ⟨chunk_eq_renderParts tc text maxTokens overlapTokens,
   chunkParts_budget tc text maxTokens overlapTokens⟩

/-- Witness for C2 (amended) on a concrete run. -/
theorem chunk_budget_partSum_witness :
    sumTc heuristicTokenCount [(false, "aaaaaaaa"), (false, "bbbbbbbb")] ≤ 4
    ∨ (∃ s, [((false : Bool), "aaaaaaaa"), (false, "bbbbbbbb")] = [(false, s)]
        ∧ 4 < heuristicTokenCount s)
    ∨ (∃ p ∈ [((false : Bool), "aaaaaaaa"), (false, "bbbbbbbb")], p.1 = true) :=
  (chunk_budget_partSum heuristicTokenCount "aaaaaaaa\n\nbbbbbbbb" 4 0).2
    [(false, "aaaaaaaa"), (false, "bbbbbbbb")] (by decide)

/-! ### Overlap seeding (C3) -/

theorem takeTailScan_shape (tc : String → Nat) (parts : List String)
    (overlapTokens : Nat) :
    ∀ m, takeTailScan tc parts overlapTokens m = ""
      ∨ ∃ n, takeTailScan tc parts overlapTokens m =
          String.intercalate " " (parts.drop n)
        ∧ overlapTokens ≤ tc (takeTailScan tc parts overlapTokens m)
  | 0 => Or.inl rfl
  | m + 1 => by
      unfold takeTailScan
      by_cases hcand : overlapTokens ≤ tc (String.intercalate " " (parts.drop m))
      · rw [if_pos hcand]
        exact Or.inr ⟨m, rfl, hcand⟩
      · rw [if_neg hcand]
        exact takeTailScan_shape tc parts overlapTokens m

/-- The tail-overlap is empty or the single-space join of a suffix of the
`/\s+/`-split words of the previous chunk, and then meets the token target. -/
theorem takeTailOverlapTokens_shape (tc : String → Nat) (text : String)
    (overlapTokens : Nat) :
    takeTailOverlapTokens tc text overlapTokens = ""
    ∨ ∃ n, takeTailOverlapTokens tc text overlapTokens =
        String.intercalate " " ((splitWs text).drop n)
      ∧ overlapTokens ≤ tc (takeTailOverlapTokens tc text overlapTokens) := by
  unfold takeTailOverlapTokens
  by_cases hz : overlapTokens = 0
  · rw [if_pos hz]; exact Or.inl rfl
  · rw [if_neg hz]
    exact takeTailScan_shape tc (splitWs text) overlapTokens (splitWs text).length

/-- With `overlapTokens = 0` no part is ever tagged as a seed. -/
def NoSeedInv (st : ChunkStT) : Prop :=
  (∀ ps ∈ st.chunks, ∀ p ∈ ps, p.1 = false) ∧ (∀ p ∈ st.current, p.1 = false)

theorem noSeedInv_pushChunkT {st : ChunkStT} (h : NoSeedInv st) :
    NoSeedInv (pushChunkT st) := by
  obtain ⟨h1, h2⟩ := h
  unfold pushChunkT
  by_cases hc : st.current = []
  · rw [if_pos hc]; exact ⟨h1, h2⟩
  · rw [if_neg hc]
    refine ⟨?_, h2⟩
    intro ps hps
    rcases List.mem_append.mp hps with hin | hin
    · exact h1 ps hin
    · rw [List.mem_singleton.mp hin]; exact h2

theorem noSeedInv_closeAndSeedT (tc : String → Nat) {st : ChunkStT}
    (h : NoSeedInv st) : NoSeedInv (closeAndSeedT tc 0 st) := by
  obtain ⟨p1, p2⟩ := noSeedInv_pushChunkT h
  unfold closeAndSeedT
  have hcond : ¬(0 < 0 ∧ (pushChunkT st).chunks ≠ []) :=
    fun hcon => Nat.lt_irrefl 0 hcon.1
  rw [if_neg hcond]
  exact ⟨p1, (fun _ hp => nomatch hp)⟩

theorem noSeedInv_stepPartT (tc : String → Nat) (maxTokens : Nat)
    {st : ChunkStT} (h : NoSeedInv st) (part : String) (t : Nat) :
    NoSeedInv (stepPartT tc maxTokens 0 st part t) := by
  unfold stepPartT
  by_cases hfl : maxTokens < st.currentTokens + t ∧ st.current ≠ []
  · rw [if_pos hfl]
    obtain ⟨g1, g2⟩ := noSeedInv_closeAndSeedT tc h
    refine ⟨g1, ?_⟩
    intro p hp
    simp only [appendPartT] at hp
    rcases List.mem_append.mp hp with hin | hin
    · exact g2 p hin
    · rw [List.mem_singleton.mp hin]
  · rw [if_neg hfl]
    obtain ⟨g1, g2⟩ := h
    refine ⟨g1, ?_⟩
    intro p hp
    simp only [appendPartT] at hp
    rcases List.mem_append.mp hp with hin | hin
    · exact g2 p hin
    · rw [List.mem_singleton.mp hin]

theorem noSeedInv_foldlPart (tc : String → Nat) (maxTokens : Nat) :
    ∀ (ss : List String) {st : ChunkStT}, NoSeedInv st →
      NoSeedInv (ss.foldl (fun s sent => stepPartT tc maxTokens 0 s sent
        (tc sent)) st)
  | [], _, h => h
  | s :: ss, _, h =>
      noSeedInv_foldlPart tc maxTokens ss
        (noSeedInv_stepPartT tc maxTokens h s (tc s))

theorem noSeedInv_stepParaT (tc : String → Nat) (maxTokens : Nat)
    {st : ChunkStT} (h : NoSeedInv st) (para : String) :
    NoSeedInv (stepParaT tc maxTokens 0 st para) := by
  unfold stepParaT
  by_cases hb : maxTokens < tc para
  · rw [if_pos hb]
    exact noSeedInv_foldlPart tc maxTokens (splitSentences para) h
  · rw [if_neg hb]
    exact noSeedInv_stepPartT tc maxTokens h para (tc para)

theorem noSeedInv_foldl (tc : String → Nat) (maxTokens : Nat) :
    ∀ (ps : List String) {st : ChunkStT}, NoSeedInv st →
      NoSeedInv (ps.foldl (stepParaT tc maxTokens 0) st)
  | [], _, h => h
  | p :: ps, _, h =>
      noSeedInv_foldl tc maxTokens ps (noSeedInv_stepParaT tc maxTokens h p)

/-- Instrumented run with `overlapTokens = 0`: no chunk contains a seed. -/
theorem chunkParts_noSeed (tc : String → Nat) (text : String) (maxTokens : Nat) :
    ∀ ps ∈ chunkParts tc text maxTokens 0, ∀ p ∈ ps, p.1 = false := by
  unfold chunkParts
  by_cases hc : jsTrim (String.mk (normalizeEOL text.data)) = ""
  · rw [if_pos hc]; intro ps hps; cases hps
  · rw [if_neg hc]
    have hinit : NoSeedInv { chunks := [], current := [], currentTokens := 0 } :=
      ⟨(fun _ hps => nomatch hps), (fun _ hp => nomatch hp)⟩
    exact (noSeedInv_pushChunkT (noSeedInv_foldl tc maxTokens _ hinit)).1

/-- Every seed part of chunk `b` is the tail-overlap of the preceding chunk
`a` (used on adjacent chunks of the output). -/
def seedRel (tc : String → Nat) (overlapTokens : Nat)
    (a b : List ChunkPart) : Prop :=
  ∀ p ∈ b, p.1 = true →
    p.2 = takeTailOverlapTokens tc (renderParts a) overlapTokens

/-- Seeds occur only as the first part of a chunk. -/
def tailNoSeed (ps : List ChunkPart) : Prop := ∀ p ∈ ps.drop 1, p.1 = false

/-- Loop invariant tying each seed to the chunk it was taken from. -/
def SeedInv (tc : String → Nat) (overlapTokens : Nat) (st : ChunkStT) : Prop :=
  List.Chain' (seedRel tc overlapTokens) st.chunks
  ∧ (∀ ps ∈ st.chunks, tailNoSeed ps)
  ∧ tailNoSeed st.current
  ∧ (∀ p ∈ st.current, p.1 = true →
      st.chunks ≠ [] ∧ p.2 = takeTailOverlapTokens tc
        (renderParts (st.chunks.getLastD [])) overlapTokens)
  ∧ (∀ c ∈ st.chunks.head?, ∀ p ∈ c, p.1 = false)

theorem tailNoSeed_append_false {ps : List ChunkPart} (h : tailNoSeed ps)
    (part : String) : tailNoSeed (ps ++ [(false, part)]) := by
  cases ps with
  | nil => intro p hp; simp at hp
  | cons q qs =>
      intro p hp
      simp only [List.cons_append, List.drop_succ_cons, List.drop_zero] at hp ⊢
      rcases List.mem_append.mp hp with hin | hin
      · exact h p (by simpa using hin)
      · rw [List.mem_singleton.mp hin]

theorem seedInv_pushChunkT {tc : String → Nat} {overlapTokens : Nat}
    {st : ChunkStT} (h : SeedInv tc overlapTokens st) :
    List.Chain' (seedRel tc overlapTokens) (pushChunkT st).chunks
    ∧ (∀ ps ∈ (pushChunkT st).chunks, tailNoSeed ps)
    ∧ (∀ c ∈ (pushChunkT st).chunks.head?, ∀ p ∈ c, p.1 = false) := by
  obtain ⟨hA, hB, hC, hD, hE⟩ := h
  unfold pushChunkT
  by_cases hc : st.current = []
  · rw [if_pos hc]; exact ⟨hA, hB, hE⟩
  · rw [if_neg hc]
    refine ⟨?_, ?_, ?_⟩
    · refine (List.chain'_append).mpr ⟨hA, List.chain'_singleton _, ?_⟩
      intro x hx y hy
      have hy' : st.current = y := by simpa using hy
      subst hy'
      intro p hp hpt
      have hgl : st.chunks.getLastD [] = x := by
        have : st.chunks.getLast? = some x := hx
        simp [List.getLastD_eq_getLast?, this]
      have := hD p hp hpt
      rw [← hgl]
      exact this.2
    · intro ps hps
      rcases List.mem_append.mp hps with hin | hin
      · exact hB ps hin
      · rw [List.mem_singleton.mp hin]; exact hC
    · intro c hgl p hp
      cases hk : st.chunks with
      | nil =>
          have hc' : st.current = c := by
            rw [hk] at hgl; simpa using hgl
          subst hc'
          cases hpb : p.1 with
          | false => rfl
          | true => exact absurd hk ((hD p hp hpb).1)
      | cons d ds =>
          have hc' : d = c := by
            rw [hk] at hgl; simpa using hgl
          subst hc'
          exact hE d (by rw [hk]; rfl) p hp

theorem seedInv_closeAndSeedT (tc : String → Nat) (overlapTokens : Nat)
    {st : ChunkStT} (h : SeedInv tc overlapTokens st) :
    SeedInv tc overlapTokens (closeAndSeedT tc overlapTokens st) := by
  obtain ⟨pA, pB, pE⟩ := seedInv_pushChunkT h
  unfold closeAndSeedT
  by_cases hcond : 0 < overlapTokens ∧ (pushChunkT st).chunks ≠ []
  · rw [if_pos hcond]
    unfold seedWithT
    by_cases hbe : takeTailOverlapTokens tc
        (renderParts ((pushChunkT st).chunks.getLastD [])) overlapTokens = ""
    · rw [if_pos hbe]
      exact ⟨pA, pB, (fun _ hp => nomatch hp), (fun _ hp => nomatch hp), pE⟩
    · rw [if_neg hbe]
      refine ⟨pA, pB, ?_, ?_, pE⟩
      · intro p hp; simp at hp
      · intro p hp hpt
        have hp' : p = (true, takeTailOverlapTokens tc
            (renderParts ((pushChunkT st).chunks.getLastD [])) overlapTokens) := by
          simpa using hp
        subst hp'
        exact ⟨hcond.2, rfl⟩
  · rw [if_neg hcond]
    exact ⟨pA, pB, (fun _ hp => nomatch hp), (fun _ hp => nomatch hp), pE⟩

theorem seedInv_stepPartT (tc : String → Nat) (maxTokens overlapTokens : Nat)
    {st : ChunkStT} (h : SeedInv tc overlapTokens st) (part : String) (t : Nat) :
    SeedInv tc overlapTokens (stepPartT tc maxTokens overlapTokens st part t) := by
  unfold stepPartT
  by_cases hfl : maxTokens < st.currentTokens + t ∧ st.current ≠ []
  · rw [if_pos hfl]
    obtain ⟨gA, gB, gC, gD, gE⟩ := seedInv_closeAndSeedT tc overlapTokens h
    refine ⟨gA, gB, tailNoSeed_append_false gC part, ?_, gE⟩
    intro p hp hpt
    simp only [appendPartT] at hp
    rcases List.mem_append.mp hp with hin | hin
    · exact gD p hin hpt
    · rw [List.mem_singleton.mp hin] at hpt; cases hpt
  · rw [if_neg hfl]
    obtain ⟨hA, hB, hC, hD, hE⟩ := h
    refine ⟨hA, hB, tailNoSeed_append_false hC part, ?_, hE⟩
    intro p hp hpt
    simp only [appendPartT] at hp
    rcases List.mem_append.mp hp with hin | hin
    · exact hD p hin hpt
    · rw [List.mem_singleton.mp hin] at hpt; cases hpt

theorem seedInv_foldlPart (tc : String → Nat) (maxTokens overlapTokens : Nat) :
    ∀ (ss : List String) {st : ChunkStT}, SeedInv tc overlapTokens st →
      SeedInv tc overlapTokens
        (ss.foldl (fun s sent =>
          stepPartT tc maxTokens overlapTokens s sent (tc sent)) st)
  | [], _, h => h
  | s :: ss, _, h =>
      seedInv_foldlPart tc maxTokens overlapTokens ss
        (seedInv_stepPartT tc maxTokens overlapTokens h s (tc s))

theorem seedInv_stepParaT (tc : String → Nat) (maxTokens overlapTokens : Nat)
    {st : ChunkStT} (h : SeedInv tc overlapTokens st) (para : String) :
    SeedInv tc overlapTokens (stepParaT tc maxTokens overlapTokens st para) := by
  unfold stepParaT
  by_cases hb : maxTokens < tc para
  · rw [if_pos hb]
    exact seedInv_foldlPart tc maxTokens overlapTokens (splitSentences para) h
  · rw [if_neg hb]
    exact seedInv_stepPartT tc maxTokens overlapTokens h para (tc para)

theorem seedInv_foldl (tc : String → Nat) (maxTokens overlapTokens : Nat) :
    ∀ (ps : List String) {st : ChunkStT}, SeedInv tc overlapTokens st →
      SeedInv tc overlapTokens
        (ps.foldl (stepParaT tc maxTokens overlapTokens) st)
  | [], _, h => h
  | p :: ps, _, h =>
      seedInv_foldl tc maxTokens overlapTokens ps
        (seedInv_stepParaT tc maxTokens overlapTokens h p)

/-- The chunk list of the instrumented run: adjacent chunks are related by
`seedRel` (each seed is the tail-overlap of the previous chunk), seeds occur
only as first parts, and the first chunk has no seed. -/
theorem chunkParts_seedChain (tc : String → Nat) (text : String)
    (maxTokens overlapTokens : Nat) :
    List.Chain' (seedRel tc overlapTokens)
      (chunkParts tc text maxTokens overlapTokens)
    ∧ (∀ ps ∈ chunkParts tc text maxTokens overlapTokens, tailNoSeed ps)
    ∧ (∀ c ∈ (chunkParts tc text maxTokens overlapTokens).head?,
        ∀ p ∈ c, p.1 = false) := by
  unfold chunkParts
  by_cases hc : jsTrim (String.mk (normalizeEOL text.data)) = ""
  · rw [if_pos hc]
    exact ⟨List.chain'_nil, (fun _ hp => nomatch hp), (fun _ hp => nomatch hp)⟩
  · rw [if_neg hc]
    have hinit : SeedInv tc overlapTokens
        { chunks := [], current := [], currentTokens := 0 } :=
      ⟨List.chain'_nil, (fun _ hp => nomatch hp), (fun _ hp => nomatch hp),
       (fun _ hp => nomatch hp), (fun _ hp => nomatch hp)⟩
    exact seedInv_pushChunkT
      (seedInv_foldl tc maxTokens overlapTokens _ hinit)

/-- C3 (corrected): with the heuristic counter, `maxTokens = 2`,
`overlapTokens = 2` and input `"aaaa\n\nbbbb\n\ncccccccc"`, the second chunk is
seeded with `"aaaa bbbb"` (the space-join of the previous chunk's words), which
is not a suffix of the previous chunk's text `"aaaa\n\nbbbb"` — the backward
word scan re-joins with single spaces, losing the original `\n\n` separator. -/
theorem chunk_overlap_seeding_cex :
    chunkTextIntoTokenBatches heuristicTokenCount "aaaa\n\nbbbb\n\ncccccccc" 2 2 =
      ["aaaa\n\nbbbb", "aaaa bbbb\n\ncccccccc"]
    ∧ chunkParts heuristicTokenCount "aaaa\n\nbbbb\n\ncccccccc" 2 2 =
      [[(false, "aaaa"), (false, "bbbb")],
       [(true, "aaaa bbbb"), (false, "cccccccc")]]
    ∧ takeTailOverlapTokens heuristicTokenCount "aaaa\n\nbbbb" 2 = "aaaa bbbb"
    ∧ ("aaaa bbbb".data).isSuffixOf ("aaaa\n\nbbbb".data) = false :=
  ⟨by decide, by decide, by decide, by decide⟩

/-- C3 (amended): with `overlapTokens = 0` no chunk contains any seeded tail
text; with `overlapTokens > 0` every chunk after the first may begin with one
seed (seeds occur only as first parts, never in the first chunk), and that
seed is `takeTailOverlapTokens` of the previous chunk — which is either empty
or the single-space join of a suffix of the previous chunk's
whitespace-separated words, with at least `overlapTokens` tokens. -/
theorem chunk_overlap_seeding (tc : String → Nat) (text : String)
    (maxTokens overlapTokens : Nat) :
    chunkTextIntoTokenBatches tc text maxTokens overlapTokens =
      (chunkParts tc text maxTokens overlapTokens).map renderParts
    ∧ (∀ ps ∈ chunkParts tc text maxTokens 0, ∀ p ∈ ps, p.1 = false)
    ∧ (takeTailOverlapTokens tc text overlapTokens = ""
        ∨ ∃ n, takeTailOverlapTokens tc text overlapTokens =
            String.intercalate " " ((splitWs text).drop n)
          ∧ overlapTokens ≤ tc (takeTailOverlapTokens tc text overlapTokens))
    ∧ List.Chain' (seedRel tc overlapTokens)
        (chunkParts tc text maxTokens overlapTokens)
    ∧ (∀ ps ∈ chunkParts tc text maxTokens overlapTokens, tailNoSeed ps)
    ∧ (∀ c ∈ (chunkParts tc text maxTokens overlapTokens).head?,
        ∀ p ∈ c, p.1 = false) :=
  ⟨chunk_eq_renderParts tc text maxTokens overlapTokens,
   chunkParts_noSeed tc text maxTokens,
   takeTailOverlapTokens_shape tc text overlapTokens,
   (chunkParts_seedChain tc text maxTokens overlapTokens).1,
   (chunkParts_seedChain tc text maxTokens overlapTokens).2.1,
   (chunkParts_seedChain tc text maxTokens overlapTokens).2.2⟩

/-- Witness for C3 (amended) on a concrete run: the seeded chunk of the
counterexample input carries its seed only in first position. -/
theorem chunk_overlap_seeding_witness :
    tailNoSeed [((true : Bool), "aaaa bbbb"), (false, "cccccccc")] :=
  (chunk_overlap_seeding heuristicTokenCount "aaaa\n\nbbbb\n\ncccccccc" 2
    2).2.2.2.2.1 [(true, "aaaa bbbb"), (false, "cccccccc")] (by decide)

/-! ## Conversation store data model (`useContextStore.ts`)

`dt` models `new Date(s).getTime()`.  JS `Array.prototype.sort` is stable
(ES2019); the comparator `dt a - dt b` is modelled by a stable insertion
sort on the same key. -/

inductive ContextUnitType
  | user
  | assistant
  | system
  | note
deriving DecidableEq

structure ContextUnit where
  id : String
  type : ContextUnitType
  content : String
  tags : List String
  pinned : Bool
  removed : Bool
  timestamp : String
deriving DecidableEq

inductive ChatRole
  | system
  | user
  | assistant
deriving DecidableEq

structure ChatMessageForApi where
  role : ChatRole
  content : String
deriving DecidableEq

/-- Stable insertion for the timestamp sort. -/
def insertByTime (dt : String → Int) (u : ContextUnit) :
    List ContextUnit → List ContextUnit
  | [] => [u]
  | v :: rest =>
      if dt u.timestamp ≤ dt v.timestamp then u :: v :: rest
      else v :: insertByTime dt u rest

/-- `[...units].sort((a, b) => dt(a.timestamp) - dt(b.timestamp))`. -/
def sortByTime (dt : String → Int) (units : List ContextUnit) :
    List ContextUnit :=
  units.foldr (insertByTime dt) []

/-- The slice: everything up to (and including) the first unit with the cut
id; the whole sorted list when the id is absent or not found. -/
def sliceUpTo (dt : String → Int) (units : List ContextUnit)
    (upToUnitId : Option String) : List ContextUnit :=
  match upToUnitId with
  | none => sortByTime dt units
  | some uid =>
      match (sortByTime dt units).findIdx? (fun u => u.id == uid) with
      | none => sortByTime dt units
      | some idx => (sortByTime dt units).take (idx + 1)

/-- The `reduce` step selecting the most recent user unit
(`cur.ts >= acc.ts ? cur : acc`, starting from `null`). -/
def pickLaterUser (dt : String → Int) (acc : Option ContextUnit)
    (cur : ContextUnit) : Option ContextUnit :=
  match acc with
  | none => some cur
  | some a =>
      if dt a.timestamp ≤ dt cur.timestamp then some cur else some a

/-- The last user turn within the slice. -/
def lastUserOf (dt : String → Int) (slice : List ContextUnit) :
    Option ContextUnit :=
  (slice.filter (fun u => u.type == ContextUnitType.user)).foldl
    (pickLaterUser dt) none

/-- Units that are `removed` and timestamped strictly before the last user
turn (empty when there is no user turn). -/
def removedBeforeLastUser (dt : String → Int) (slice : List ContextUnit) :
    List ContextUnit :=
  match lastUserOf dt slice with
  | none => []
  | some lu =>
      slice.filter
        (fun u => u.removed && decide (dt u.timestamp < dt lu.timestamp))

/-- The synthesized forget notice. -/
def mkForgetNotice (u : ContextUnit) : ChatMessageForApi :=
  { role := ChatRole.system,
    content := "Note: Forget any earlier mention of '" ++ u.content ++
      "'. It is incorrect or irrelevant." }

/-- `'note' → 'system'`, other types map to their own role. -/
def roleOf : ContextUnitType → ChatRole
  | ContextUnitType.user => ChatRole.user
  | ContextUnitType.assistant => ChatRole.assistant
  | ContextUnitType.system => ChatRole.system
  | ContextUnitType.note => ChatRole.system

def toApiMessage (u : ContextUnit) : ChatMessageForApi :=
  { role := roleOf u.type, content := u.content }

/-- Forget notices followed by the mapped non-removed slice. -/
def assembledMessages (dt : String → Int) (slice : List ContextUnit) :
    List ChatMessageForApi :=
  (removedBeforeLastUser dt slice).map mkForgetNotice ++
    (slice.filter (fun u => !u.removed)).map toApiMessage

structure AssembleTotals where
  totalTokens : Nat
  totalUserTokens : Nat
  totalAssistantTokens : Nat
deriving DecidableEq

structure AssembleResult where
  messages : List ChatMessageForApi
  totals : AssembleTotals
deriving DecidableEq

/-- The totals loop body: only user and assistant roles contribute. -/
def accumTotals (tc : String → Nat) (t : AssembleTotals)
    (m : ChatMessageForApi) : AssembleTotals :=
  match m.role with
  | ChatRole.user =>
      { t with totalUserTokens := t.totalUserTokens + tc m.content,
               totalTokens := t.totalTokens + tc m.content }
  | ChatRole.assistant =>
      { t with totalAssistantTokens := t.totalAssistantTokens + tc m.content,
               totalTokens := t.totalTokens + tc m.content }
  | ChatRole.system => t

/-- `internalAssembleWithTotals` (`useContextStore.ts`). -/
def internalAssembleWithTotals (tc : String → Nat) (dt : String → Int)
    (units : List ContextUnit) (upToUnitId : Option String) : AssembleResult :=
  if sliceUpTo dt units upToUnitId = [] then
    { messages := [], totals := ⟨0, 0, 0⟩ }
  else
    { messages := assembledMessages dt (sliceUpTo dt units upToUnitId),
      totals := (assembledMessages dt (sliceUpTo dt units upToUnitId)).foldl
        (accumTotals tc) ⟨0, 0, 0⟩ }

theorem pickLaterUser_foldl_spec (dt : String → Int) :
    ∀ (l : List ContextUnit) (a : ContextUnit),
      ∃ b, l.foldl (pickLaterUser dt) (some a) = some b
        ∧ b ∈ a :: l
        ∧ dt a.timestamp ≤ dt b.timestamp
        ∧ ∀ u ∈ l, dt u.timestamp ≤ dt b.timestamp
  | [], a => ⟨a, rfl, List.mem_singleton.mpr rfl, le_refl _, fun _ hu => nomatch hu⟩
  | c :: l, a => by
      have hstep : pickLaterUser dt (some a) c =
          some (if dt a.timestamp ≤ dt c.timestamp then c else a) := by
        by_cases hac : dt a.timestamp ≤ dt c.timestamp
        · simp [pickLaterUser, hac]
        · simp [pickLaterUser, hac]
      obtain ⟨b, hb, hbmem, hble, hball⟩ :=
        pickLaterUser_foldl_spec dt l (if dt a.timestamp ≤ dt c.timestamp then c else a)
      refine ⟨b, ?_, ?_, ?_, ?_⟩
      · simpa [List.foldl_cons, hstep] using hb
      · rcases List.mem_cons.mp hbmem with hx | hx
        · by_cases hac : dt a.timestamp ≤ dt c.timestamp
          · rw [if_pos hac] at hx
            exact List.mem_cons.mpr (Or.inr (hx ▸ List.mem_cons_self c l))
          · rw [if_neg hac] at hx
            exact List.mem_cons.mpr (Or.inl hx)
        · exact List.mem_cons.mpr (Or.inr (List.mem_cons.mpr (Or.inr hx)))
      · by_cases hac : dt a.timestamp ≤ dt c.timestamp
        · rw [if_pos hac] at hble
          exact le_trans hac hble
        · rw [if_neg hac] at hble
          exact hble
      · intro u hu
        rcases List.mem_cons.mp hu with hx | hx
        · subst hx
          by_cases hac : dt a.timestamp ≤ dt u.timestamp
          · rw [if_pos hac] at hble
            exact hble
          · rw [if_neg hac] at hble
            exact le_trans (le_of_not_le hac) hble
        · exact hball u hx

theorem lastUserOf_none_iff (dt : String → Int) (slice : List ContextUnit) :
    lastUserOf dt slice = none ↔ ∀ u ∈ slice, u.type ≠ ContextUnitType.user := by
  unfold lastUserOf
  constructor
  · intro h u hu ht
    cases hf : slice.filter (fun u => u.type == ContextUnitType.user) with
    | nil =>
        have := List.filter_eq_nil_iff.mp hf u hu
        simp [ht] at this
    | cons c l =>
        rw [hf] at h
        obtain ⟨b, hb, _, _, _⟩ := pickLaterUser_foldl_spec dt l c
        rw [List.foldl_cons] at h
        have hc : pickLaterUser dt none c = some c := rfl
        rw [hc] at h
        rw [hb] at h
        cases h
  · intro h
    have hf : slice.filter (fun u => u.type == ContextUnitType.user) = [] :=
      List.filter_eq_nil_iff.mpr (fun u hu => by simp [h u hu])
    rw [hf]
    rfl

theorem lastUserOf_spec (dt : String → Int) (slice : List ContextUnit)
    (lu : ContextUnit) (h : lastUserOf dt slice = some lu) :
    lu ∈ slice ∧ lu.type = ContextUnitType.user
    ∧ ∀ u ∈ slice, u.type = ContextUnitType.user →
        dt u.timestamp ≤ dt lu.timestamp := by
  unfold lastUserOf at h
  cases hf : slice.filter (fun u => u.type == ContextUnitType.user) with
  | nil => rw [hf] at h; cases h
  | cons c l =>
      rw [hf, List.foldl_cons] at h
      have hc : pickLaterUser dt none c = some c := rfl
      rw [hc] at h
      obtain ⟨b, hb, hbmem, hble, hball⟩ := pickLaterUser_foldl_spec dt l c
      rw [hb] at h
      have hbl : b = lu := Option.some.inj h
      subst hbl
      have hmemf : b ∈ slice.filter (fun u => u.type == ContextUnitType.user) := by
        rw [hf]; exact hbmem
      have hm := List.mem_filter.mp hmemf
      refine ⟨hm.1, by simpa using hm.2, ?_⟩
      intro u hu hut
      have huf : u ∈ slice.filter (fun u => u.type == ContextUnitType.user) :=
        List.mem_filter.mpr ⟨hu, by simp [hut]⟩
      rw [hf] at huf
      rcases List.mem_cons.mp huf with hx | hx
      · subst hx
        exact hble
      · exact hball u hx

/-- C1: the assembled message list is exactly the forget notices — one per
unit of the slice that is removed and strictly before the last user turn, in
slice order — followed by the mapped non-removed messages (removed units
excluded); with no user-type unit in the slice there are no forget notices;
and the "last user turn" is a user unit of the slice with the latest
timestamp among user units. -/
theorem assemble_forget_notice_spec (tc : String → Nat) (dt : String → Int)
    (units : List ContextUnit) (upToUnitId : Option String) :
    (internalAssembleWithTotals tc dt units upToUnitId).messages =
      (removedBeforeLastUser dt (sliceUpTo dt units upToUnitId)).map
        mkForgetNotice
      ++ ((sliceUpTo dt units upToUnitId).filter (fun u => !u.removed)).map
        toApiMessage
    ∧ ((∀ u ∈ sliceUpTo dt units upToUnitId, u.type ≠ ContextUnitType.user) →
        removedBeforeLastUser dt (sliceUpTo dt units upToUnitId) = [])
    ∧ (∀ lu, lastUserOf dt (sliceUpTo dt units upToUnitId) = some lu →
        lu ∈ sliceUpTo dt units upToUnitId
        ∧ lu.type = ContextUnitType.user
        ∧ (∀ u ∈ sliceUpTo dt units upToUnitId,
            u.type = ContextUnitType.user →
              dt u.timestamp ≤ dt lu.timestamp)
        ∧ removedBeforeLastUser dt (sliceUpTo dt units upToUnitId) =
            (sliceUpTo dt units upToUnitId).filter
              (fun u => u.removed && decide (dt u.timestamp <
                dt lu.timestamp))) := by
  refine ⟨?_, ?_, ?_⟩
  · unfold internalAssembleWithTotals
    by_cases hempty : sliceUpTo dt units upToUnitId = []
    · rw [if_pos hempty, hempty]
      rfl
    · rw [if_neg hempty]
      rfl
  · intro h
    unfold removedBeforeLastUser
    rw [(lastUserOf_none_iff dt _).mpr h]
  · intro lu hlu
    obtain ⟨hmem, htype, hmax⟩ := lastUserOf_spec dt _ lu hlu
    refine ⟨hmem, htype, hmax, ?_⟩
    unfold removedBeforeLastUser
    rw [hlu]

/-- Concrete timestamp interpretation used by the witnesses: decimal strings
as instants. -/
def fixtureTime (s : String) : Int :=
  Int.ofNat (s.data.foldl (fun n c => n * 10 + (c.toNat - 48)) 0)

def fixU1 : ContextUnit :=
  { id := "u1", type := ContextUnitType.user, content := "alpha",
    tags := [], pinned := false, removed := false, timestamp := "1" }

def fixU2 : ContextUnit :=
  { id := "u2", type := ContextUnitType.assistant, content := "beta",
    tags := [], pinned := false, removed := true, timestamp := "2" }

def fixU3 : ContextUnit :=
  { id := "u3", type := ContextUnitType.user, content := "gamma",
    tags := [], pinned := false, removed := false, timestamp := "3" }

/-- Witness for C1 on the spec's own three-unit scenario. -/
theorem assemble_forget_notice_spec_witness :
    fixU3 ∈ sliceUpTo fixtureTime [fixU1, fixU2, fixU3] none
    ∧ fixU3.type = ContextUnitType.user
    ∧ (∀ u ∈ sliceUpTo fixtureTime [fixU1, fixU2, fixU3] none,
        u.type = ContextUnitType.user →
          fixtureTime u.timestamp ≤ fixtureTime fixU3.timestamp)
    ∧ removedBeforeLastUser fixtureTime
        (sliceUpTo fixtureTime [fixU1, fixU2, fixU3] none) =
      (sliceUpTo fixtureTime [fixU1, fixU2, fixU3] none).filter
        (fun u => u.removed && decide (fixtureTime u.timestamp <
          fixtureTime fixU3.timestamp)) :=
  (assemble_forget_notice_spec heuristicTokenCount fixtureTime
    [fixU1, fixU2, fixU3] none).2.2 fixU3 (by decide)

/-! ### Token totals (C10) -/

theorem accumTotals_foldl (tc : String → Nat) :
    ∀ (msgs : List ChatMessageForApi) (t0 : AssembleTotals),
      (msgs.foldl (accumTotals tc) t0).totalTokens
        = t0.totalTokens +
          ((msgs.filter (fun m => !(m.role == ChatRole.system))).map
            (fun m => tc m.content)).sum
      ∧ (msgs.foldl (accumTotals tc) t0).totalUserTokens
        = t0.totalUserTokens +
          ((msgs.filter (fun m => m.role == ChatRole.user)).map
            (fun m => tc m.content)).sum
      ∧ (msgs.foldl (accumTotals tc) t0).totalAssistantTokens
        = t0.totalAssistantTokens +
          ((msgs.filter (fun m => m.role == ChatRole.assistant)).map
            (fun m => tc m.content)).sum
  | [], t0 => by simp
  | m :: msgs, t0 => by
      obtain ⟨ih1, ih2, ih3⟩ := accumTotals_foldl tc msgs (accumTotals tc t0 m)
      have hacc : accumTotals tc t0 m = accumTotals tc t0 m := rfl
      cases hr : m.role with
      | user =>
          have ha : accumTotals tc t0 m =
              { t0 with totalUserTokens := t0.totalUserTokens + tc m.content,
                        totalTokens := t0.totalTokens + tc m.content } := by
            unfold accumTotals
            rw [hr]
          rw [List.foldl_cons]
          refine ⟨?_, ?_, ?_⟩
          · rw [ih1, ha]
            simp [hr, Nat.add_assoc]
          · rw [ih2, ha]
            simp [hr, Nat.add_assoc]
          · rw [ih3, ha]
            simp [hr]
      | assistant =>
          have ha : accumTotals tc t0 m =
              { t0 with totalAssistantTokens :=
                          t0.totalAssistantTokens + tc m.content,
                        totalTokens := t0.totalTokens + tc m.content } := by
            unfold accumTotals
            rw [hr]
          rw [List.foldl_cons]
          refine ⟨?_, ?_, ?_⟩
          · rw [ih1, ha]
            simp [hr, Nat.add_assoc]
          · rw [ih2, ha]
            simp [hr]
          · rw [ih3, ha]
            simp [hr, Nat.add_assoc]
      | system =>
          have ha : accumTotals tc t0 m = t0 := by
            unfold accumTotals
            rw [hr]
          rw [List.foldl_cons]
          refine ⟨?_, ?_, ?_⟩
          · rw [ih1, ha]
            simp [hr]
          · rw [ih2, ha]
            simp [hr]
          · rw [ih3, ha]
            simp [hr]

/-! ## Store state and operations (`useContextStore.ts`)

Fields the source leaves `undefined` and always reads through a default
(`|| ''`, `|| 0`, `|| []`) are modelled by those defaults.  The scheduled
`queueMicrotask` refreshes (summary, token recompute) are modelled as
separate operations. -/

structure Conversation where
  id : String
  title : String
  createdAt : String
  parentConversationId : Option String
  forkedFromUnitId : Option String
  units : List ContextUnit
  summary : String
  summaryUpdatedAt : String
  summaryLoading : Bool
  summaryError : String
  summaryCacheKey : String
  lastSummarySchemaVersion : Nat
  totalTokens : Nat
  totalUserTokens : Nat
  totalAssistantTokens : Nat
  attachmentIds : List String
  totalAttachmentTokens : Nat
deriving DecidableEq

structure AttachmentChunk where
  index : Nat
  text : String
  tokenCount : Nat
deriving DecidableEq

structure EditModalState where
  isOpen : Bool
  conversationId : String
  unitId : String
  newContent : String
deriving DecidableEq

structure RemoveModalState where
  isOpen : Bool
  conversationId : String
  unitId : String
deriving DecidableEq

inductive RegenMode
  | trim
  | branch
deriving DecidableEq

structure RegenerationRequestState where
  mode : RegenMode
  targetConversationId : String
  editedUnitId : String
deriving DecidableEq

structure StoreState where
  conversations : List Conversation
  activeConversationId : String
  editModal : Option EditModalState
  removeModal : Option RemoveModalState
  regenerationRequest : Option RegenerationRequestState
deriving DecidableEq

/-- `createInitialConversation` (empty unit list; summary fields zeroed). -/
def createInitialConversation (id ts : String) : Conversation :=
  { id := id, title := "New Conversation", createdAt := ts,
    parentConversationId := none, forkedFromUnitId := none, units := [],
    summary := "", summaryUpdatedAt := "", summaryLoading := false,
    summaryError := "", summaryCacheKey := "", lastSummarySchemaVersion := 0,
    totalTokens := 0, totalUserTokens := 0, totalAssistantTokens := 0,
    attachmentIds := [], totalAttachmentTokens := 0 }

/-- `findConversationIndex` + `conversations[idx] = f(conversations[idx])`. -/
def updateConversationAt (convs : List Conversation) (cid : String)
    (f : Conversation → Conversation) : List Conversation :=
  match convs.findIdx? (fun c => c.id == cid) with
  | none => convs
  | some idx =>
      match convs.get? idx with
      | none => convs
      | some c => convs.set idx (f c)

/-- `state.activeConversationId || state.conversations[0].id` (the JS access
throws on an empty conversation list; modelled by the empty id, which no
conversation carries in the states considered). -/
def targetActiveId (st : StoreState) : String :=
  if st.activeConversationId ≠ "" then st.activeConversationId
  else ((st.conversations.head?).map Conversation.id).getD ""

/-- Replace a conversation's unit list. -/
def withUnits (us : List ContextUnit) (c : Conversation) : Conversation :=
  { c with units := us }

def appendUnit (u : ContextUnit) (c : Conversation) : Conversation :=
  withUnits (c.units ++ [u]) c

def addUnit (u : ContextUnit) (st : StoreState) : StoreState :=
  { st with conversations := updateConversationAt st.conversations (targetActiveId st) (appendUnit u) }

/-- The `togglePin` unit map: no check of `removed`. -/
def togglePinUnit (u : ContextUnit) : ContextUnit := { u with pinned := !u.pinned }

def togglePinIfMatch (id : String) (u : ContextUnit) : ContextUnit :=
  if u.id == id then togglePinUnit u else u

def togglePin (id : String) (st : StoreState) : StoreState :=
  { st with conversations := updateConversationAt st.conversations (targetActiveId st) (fun c => withUnits (c.units.map (togglePinIfMatch id)) c) }

/-- The `toggleRemoved` unit map: removing clears the pin; restoring keeps
the current `pinned` value. -/
def toggleRemovedUnit (u : ContextUnit) : ContextUnit :=
  { u with removed := !u.removed, pinned := if u.removed then u.pinned else false }

def toggleRemovedIfMatch (id : String) (u : ContextUnit) : ContextUnit :=
  if u.id == id then toggleRemovedUnit u else u

def toggleRemoved (id : String) (st : StoreState) : StoreState :=
  { st with conversations := updateConversationAt st.conversations (targetActiveId st) (fun c => withUnits (c.units.map (toggleRemovedIfMatch id)) c) }

/-- The content-edit unit map (`updateUnit`, `updateUnitInConversation`,
and the edit-modal flows). -/
def editUnitContent (unitId newContent : String) (u : ContextUnit) : ContextUnit :=
  if u.id == unitId then { u with content := newContent } else u

def updateUnit (id newContent : String) (st : StoreState) : StoreState :=
  { st with conversations := updateConversationAt st.conversations (targetActiveId st) (fun c => withUnits (c.units.map (editUnitContent id newContent)) c) }

/-- `deleteConversation`: the fresh conversation's random id and timestamp
are the `freshId`/`freshTs` parameters. -/
def deleteConversation (freshId freshTs cid : String) (st : StoreState) :
    StoreState :=
  if st.conversations.filter (fun c => !(c.id == cid)) = [] then
    { st with conversations := [createInitialConversation freshId freshTs],
              activeConversationId := (createInitialConversation freshId freshTs).id }
  else
    { st with
      conversations := st.conversations.filter (fun c => !(c.id == cid)),
      activeConversationId :=
        if st.activeConversationId = cid then
          (((st.conversations.filter (fun c => !(c.id == cid))).head?).map Conversation.id).getD ""
        else st.activeConversationId }

def renameConversationMap (cid nextTitle : String) (c : Conversation) : Conversation :=
  if c.id == cid then
    { c with title := if jsTrim nextTitle = "" then c.title else jsTrim nextTitle }
  else c

def renameConversation (cid nextTitle : String) (st : StoreState) : StoreState :=
  { st with conversations := st.conversations.map (renameConversationMap cid nextTitle) }

def setActiveConversation (cid : String) (st : StoreState) : StoreState :=
  { st with activeConversationId := cid }

/-- The conversation record built by `createConversation` (new id and
timestamp supplied; base units keep their ids; the token-total fields are
left `undefined` by the source, i.e. the modelled defaults). -/
def mkNewConversation (newId ts : String) (title : Option String)
    (baseUnits : List ContextUnit) (parent forked : Option String) :
    Conversation :=
  { id := newId,
    title := match title with
      | none => "New Conversation"
      | some t => if jsTrim t = "" then "New Conversation" else jsTrim t,
    createdAt := ts, parentConversationId := parent, forkedFromUnitId := forked,
    units := baseUnits,
    summary := "", summaryUpdatedAt := "", summaryLoading := false,
    summaryError := "", summaryCacheKey := "", lastSummarySchemaVersion := 0,
    totalTokens := 0, totalUserTokens := 0, totalAssistantTokens := 0,
    attachmentIds := [], totalAttachmentTokens := 0 }

def createConversation (newId ts : String) (title : Option String)
    (baseUnits : List ContextUnit) (parent forked : Option String)
    (st : StoreState) : StoreState :=
  { st with
    conversations := st.conversations ++ [mkNewConversation newId ts title baseUnits parent forked],
    activeConversationId := newId }

def mkAssistantUnit (newUnitId ts content : String) : ContextUnit :=
  { id := newUnitId, type := ContextUnitType.assistant, content := content,
    tags := [], pinned := false, removed := false, timestamp := ts }

/-- `units.splice(insertIndex + 1, 0, newUnit)`. -/
def spliceAfter (units : List ContextUnit) (i : Nat) (u : ContextUnit) :
    List ContextUnit :=
  units.take (i + 1) ++ [u] ++ units.drop (i + 1)

/-- `insertAssistantAfter` (and `insertAssistantAfterGetId`, whose state
effect is identical). -/
def insertAssistantAfter (newUnitId ts cid afterUnitId content : String)
    (st : StoreState) : StoreState :=
  match st.conversations.findIdx? (fun c => c.id == cid) with
  | none => st
  | some idx =>
      match st.conversations.get? idx with
      | none => st
      | some conv =>
          match conv.units.findIdx? (fun u => u.id == afterUnitId) with
          | none => st
          | some i =>
              { st with conversations := st.conversations.set idx (withUnits (spliceAfter conv.units i (mkAssistantUnit newUnitId ts content)) conv) }

def updateUnitInConversation (cid unitId newContent : String)
    (st : StoreState) : StoreState :=
  { st with conversations := updateConversationAt st.conversations cid (fun c => withUnits (c.units.map (editUnitContent unitId newContent)) c) }

def trimAfter (cid unitId : String) (st : StoreState) : StoreState :=
  match st.conversations.findIdx? (fun c => c.id == cid) with
  | none => st
  | some idx =>
      match st.conversations.get? idx with
      | none => st
      | some conv =>
          match conv.units.findIdx? (fun u => u.id == unitId) with
          | none => st
          | some i =>
              { st with conversations := st.conversations.set idx (withUnits (conv.units.take (i + 1)) conv) }

/-- The prefix of the unit list ending at `unitId` (whole list when the id is
not found), as `branchFrom` and the edit/remove trim flows compute it. -/
def unitPrefixUpTo (units : List ContextUnit) (unitId : String) :
    List ContextUnit :=
  match units.findIdx? (fun u => u.id == unitId) with
  | none => units
  | some i => units.take (i + 1)

/-- `branchFrom`: returns the new conversation id (`''` when the source
conversation is missing) with the next state. -/
def branchFrom (newId ts : String) (cid unitId : String)
    (title : Option String) (st : StoreState) : String × StoreState :=
  match st.conversations.find? (fun c => c.id == cid) with
  | none => ("", st)
  | some conv =>
      (newId, createConversation newId ts title (unitPrefixUpTo conv.units unitId) (some cid) (some unitId) st)

def openEditModal (cid unitId newContent : String) (st : StoreState) :
    StoreState :=
  { st with editModal := some ⟨true, cid, unitId, newContent⟩ }

def closeEditModal (st : StoreState) : StoreState := { st with editModal := none }

def openRemoveModal (cid unitId : String) (st : StoreState) : StoreState :=
  { st with removeModal := some ⟨true, cid, unitId⟩ }

def closeRemoveModal (st : StoreState) : StoreState :=
  { st with removeModal := none }

def clearRegenerationRequest (st : StoreState) : StoreState :=
  { st with regenerationRequest := none }

def applyEditDoNothing (st : StoreState) : StoreState :=
  match st.editModal with
  | none => st
  | some modal =>
      match st.conversations.findIdx? (fun c => c.id == modal.conversationId) with
      | none => { st with editModal := none }
      | some idx =>
          match st.conversations.get? idx with
          | none => { st with editModal := none }
          | some conv =>
              { st with
                conversations := st.conversations.set idx (withUnits (conv.units.map (editUnitContent modal.unitId modal.newContent)) conv),
                editModal := none }

def applyEditTrim (st : StoreState) : StoreState :=
  match st.editModal with
  | none => st
  | some modal =>
      match st.conversations.findIdx? (fun c => c.id == modal.conversationId) with
      | none => { st with editModal := none }
      | some idx =>
          match st.conversations.get? idx with
          | none => { st with editModal := none }
          | some conv =>
              { st with
                conversations := st.conversations.set idx (withUnits (unitPrefixUpTo (conv.units.map (editUnitContent modal.unitId modal.newContent)) modal.unitId) conv),
                editModal := none,
                regenerationRequest := some ⟨RegenMode.trim, modal.conversationId, modal.unitId⟩ }

/-- The first `set` of `applyEditBranch`: persist the edited content (or just
close the modal when the conversation is gone). -/
def applyEditBranchPersist (modal : EditModalState) (st : StoreState) :
    StoreState :=
  match st.conversations.findIdx? (fun c => c.id == modal.conversationId) with
  | none => { st with editModal := none }
  | some idx =>
      match st.conversations.get? idx with
      | none => { st with editModal := none }
      | some conv =>
          { st with conversations := st.conversations.set idx (withUnits (conv.units.map (editUnitContent modal.unitId modal.newContent)) conv) }

def applyEditBranch (newId ts : String) (title : Option String)
    (st : StoreState) : StoreState :=
  match st.editModal with
  | none => st
  | some modal =>
      { (branchFrom newId ts modal.conversationId modal.unitId title (applyEditBranchPersist modal st)).2 with
        editModal := none,
        activeConversationId := (branchFrom newId ts modal.conversationId modal.unitId title (applyEditBranchPersist modal st)).1,
        regenerationRequest := some ⟨RegenMode.branch, (branchFrom newId ts modal.conversationId modal.unitId title (applyEditBranchPersist modal st)).1, modal.unitId⟩ }

/-- The removal tombstone map (`removed: true, pinned: false`). -/
def removeUnitTombstone (unitId : String) (u : ContextUnit) : ContextUnit :=
  if u.id == unitId then { u with removed := true, pinned := false } else u

def applyRemoveDoNothing (st : StoreState) : StoreState :=
  match st.removeModal with
  | none => st
  | some modal =>
      match st.conversations.findIdx? (fun c => c.id == modal.conversationId) with
      | none => { st with removeModal := none }
      | some idx =>
          match st.conversations.get? idx with
          | none => { st with removeModal := none }
          | some conv =>
              { st with
                conversations := st.conversations.set idx (withUnits (conv.units.map (removeUnitTombstone modal.unitId)) conv),
                removeModal := none }

def applyRemoveTrim (st : StoreState) : StoreState :=
  match st.removeModal with
  | none => st
  | some modal =>
      match st.conversations.findIdx? (fun c => c.id == modal.conversationId) with
      | none => { st with removeModal := none }
      | some idx =>
          match st.conversations.get? idx with
          | none => { st with removeModal := none }
          | some conv =>
              { st with
                conversations := st.conversations.set idx (withUnits (unitPrefixUpTo (conv.units.map (removeUnitTombstone modal.unitId)) modal.unitId) conv),
                removeModal := none }

/-- The first `set` of `applyRemoveBranch`: persist the tombstone (or just
close the modal when the conversation is gone). -/
def applyRemoveBranchPersist (modal : RemoveModalState) (st : StoreState) :
    StoreState :=
  match st.conversations.findIdx? (fun c => c.id == modal.conversationId) with
  | none => { st with removeModal := none }
  | some idx =>
      match st.conversations.get? idx with
      | none => { st with removeModal := none }
      | some conv =>
          { st with conversations := st.conversations.set idx (withUnits (conv.units.map (removeUnitTombstone modal.unitId)) conv) }

def applyRemoveBranch (newId ts : String) (title : Option String)
    (st : StoreState) : StoreState :=
  match st.removeModal with
  | none => st
  | some modal =>
      { (branchFrom newId ts modal.conversationId modal.unitId title (applyRemoveBranchPersist modal st)).2 with
        removeModal := none,
        activeConversationId := (branchFrom newId ts modal.conversationId modal.unitId title (applyRemoveBranchPersist modal st)).1 }

def setConversationAttachmentSelection (cid : String)
    (attachmentIds : List String) (st : StoreState) : StoreState :=
  if cid = "" then st
  else
    { st with conversations := updateConversationAt st.conversations cid (fun c => { c with attachmentIds := attachmentIds }) }

def chunkTokenSum (chunks : List AttachmentChunk) : Nat :=
  chunks.foldl (fun s ch => s + ch.tokenCount) 0

/-- The totals write shared by `recomputeTokenTotals` and `assembleMessages`:
the four token-total fields are replaced, everything else kept. -/
def writeTotals (t : AssembleTotals) (attachmentTokens : Nat)
    (c : Conversation) : Conversation :=
  { c with totalTokens := t.totalTokens,
           totalUserTokens := t.totalUserTokens,
           totalAssistantTokens := t.totalAssistantTokens,
           totalAttachmentTokens := attachmentTokens }

/-- `recomputeTokenTotals` (totals recomputed from the conversation read at
entry, attachment tokens from the attachment-store capability). -/
def recomputeTokenTotals (tc : String → Nat) (dt : String → Int)
    (getChunks : List String → List AttachmentChunk) (cid : String)
    (upToUnitId : Option String) (st : StoreState) : StoreState :=
  match st.conversations.find? (fun c => c.id == cid) with
  | none => st
  | some conv =>
      { st with conversations := updateConversationAt st.conversations cid (writeTotals (internalAssembleWithTotals tc dt conv.units upToUnitId).totals (chunkTokenSum (getChunks conv.attachmentIds))) }

/-- `assembleMessages`: returns the final message list (attachment chunks as
system messages first) and also persists the recomputed totals into the
store state. -/
def assembleMessages (tc : String → Nat) (dt : String → Int)
    (getChunks : List String → List AttachmentChunk) (cid : String)
    (upToUnitId : Option String) (st : StoreState) :
    List ChatMessageForApi × StoreState :=
  match st.conversations.find? (fun c => c.id == cid) with
  | none => ([], st)
  | some conv =>
      ((getChunks conv.attachmentIds).map (fun ch => { role := ChatRole.system, content := ch.text })
        ++ (internalAssembleWithTotals tc dt conv.units upToUnitId).messages,
       { st with conversations := updateConversationAt st.conversations cid (writeTotals (internalAssembleWithTotals tc dt conv.units upToUnitId).totals (chunkTokenSum (getChunks conv.attachmentIds))) })

/-! ### The store operation universe

Every public mutation of `useContextStore`, with the fresh ids/timestamps the
source draws from `randomId()`/`nowIso()` supplied as parameters. -/

inductive StoreOp
  | createConversation (newId ts : String) (title : Option String)
      (baseUnits : List ContextUnit) (parent forked : Option String)
  | deleteConversation (freshId freshTs cid : String)
  | renameConversation (cid nextTitle : String)
  | setActiveConversation (cid : String)
  | addUnit (u : ContextUnit)
  | togglePin (id : String)
  | toggleRemoved (id : String)
  | updateUnit (id newContent : String)
  | insertAssistantAfter (newUnitId ts cid afterUnitId content : String)
  | updateUnitInConversation (cid unitId newContent : String)
  | trimAfter (cid unitId : String)
  | branchFrom (newId ts cid unitId : String) (title : Option String)
  | openEditModal (cid unitId newContent : String)
  | closeEditModal
  | applyEditDoNothing
  | applyEditTrim
  | applyEditBranch (newId ts : String) (title : Option String)
  | openRemoveModal (cid unitId : String)
  | closeRemoveModal
  | applyRemoveDoNothing
  | applyRemoveTrim
  | applyRemoveBranch (newId ts : String) (title : Option String)
  | clearRegenerationRequest
  | setConversationAttachmentSelection (cid : String) (ids : List String)
  | recomputeTokenTotals (cid : String) (upToUnitId : Option String)
  | assembleMessages (cid : String) (upToUnitId : Option String)

/-- State effect of one store operation. -/
def applyOp (tc : String → Nat) (dt : String → Int)
    (getChunks : List String → List AttachmentChunk) :
    StoreOp → StoreState → StoreState
  | StoreOp.createConversation newId ts title baseUnits parent forked, st =>
      createConversation newId ts title baseUnits parent forked st
  | StoreOp.deleteConversation freshId freshTs cid, st =>
      deleteConversation freshId freshTs cid st
  | StoreOp.renameConversation cid nextTitle, st =>
      renameConversation cid nextTitle st
  | StoreOp.setActiveConversation cid, st => setActiveConversation cid st
  | StoreOp.addUnit u, st => addUnit u st
  | StoreOp.togglePin id, st => togglePin id st
  | StoreOp.toggleRemoved id, st => toggleRemoved id st
  | StoreOp.updateUnit id newContent, st => updateUnit id newContent st
  | StoreOp.insertAssistantAfter newUnitId ts cid afterUnitId content, st =>
      insertAssistantAfter newUnitId ts cid afterUnitId content st
  | StoreOp.updateUnitInConversation cid unitId newContent, st =>
      updateUnitInConversation cid unitId newContent st
  | StoreOp.trimAfter cid unitId, st => trimAfter cid unitId st
  | StoreOp.branchFrom newId ts cid unitId title, st =>
      (branchFrom newId ts cid unitId title st).2
  | StoreOp.openEditModal cid unitId newContent, st =>
      openEditModal cid unitId newContent st
  | StoreOp.closeEditModal, st => closeEditModal st
  | StoreOp.applyEditDoNothing, st => applyEditDoNothing st
  | StoreOp.applyEditTrim, st => applyEditTrim st
  | StoreOp.applyEditBranch newId ts title, st => applyEditBranch newId ts title st
  | StoreOp.openRemoveModal cid unitId, st => openRemoveModal cid unitId st
  | StoreOp.closeRemoveModal, st => closeRemoveModal st
  | StoreOp.applyRemoveDoNothing, st => applyRemoveDoNothing st
  | StoreOp.applyRemoveTrim, st => applyRemoveTrim st
  | StoreOp.applyRemoveBranch newId ts title, st =>
      applyRemoveBranch newId ts title st
  | StoreOp.clearRegenerationRequest, st => clearRegenerationRequest st
  | StoreOp.setConversationAttachmentSelection cid ids, st =>
      setConversationAttachmentSelection cid ids st
  | StoreOp.recomputeTokenTotals cid upToUnitId, st =>
      recomputeTokenTotals tc dt getChunks cid upToUnitId st
  | StoreOp.assembleMessages cid upToUnitId, st =>
      (assembleMessages tc dt getChunks cid upToUnitId st).2

/-! ### C4: the store never holds zero conversations -/

theorem updateConversationAt_length (convs : List Conversation) (cid : String)
    (f : Conversation → Conversation) :
    (updateConversationAt convs cid f).length = convs.length := by
  unfold updateConversationAt
  split
  · rfl
  · split
    · rfl
    · exact List.length_set _ _ _

theorem updateConversationAt_ne_nil {convs : List Conversation}
    (h : convs ≠ []) (cid : String) (f : Conversation → Conversation) :
    updateConversationAt convs cid f ≠ [] := by
  intro hx
  apply h
  have := updateConversationAt_length convs cid f
  rw [hx] at this
  exact List.length_eq_zero.mp this.symm

theorem set_ne_nil {convs : List Conversation} (h : convs ≠ []) (idx : Nat)
    (c : Conversation) : convs.set idx c ≠ [] := by
  intro hx
  apply h
  have := List.length_set convs idx c
  rw [hx] at this
  exact List.length_eq_zero.mp this.symm

theorem branchFrom_conversations_ne_nil {st : StoreState}
    (h : st.conversations ≠ []) (newId ts cid unitId : String)
    (title : Option String) :
    (branchFrom newId ts cid unitId title st).2.conversations ≠ [] := by
  unfold branchFrom
  cases st.conversations.find? (fun c => c.id == cid) with
  | none => exact h
  | some conv => simp [createConversation]

/-- C4: no operation empties the conversation list, and deleting the only
remaining conversation (any `cid` matching everything left) yields exactly
one freshly created conversation — empty unit list — which becomes active. -/
theorem store_never_zero_conversations :
    (∀ (tc : String → Nat) (dt : String → Int)
        (getChunks : List String → List AttachmentChunk) (op : StoreOp)
        (st : StoreState), st.conversations ≠ [] →
          (applyOp tc dt getChunks op st).conversations ≠ [])
    ∧ (∀ (st : StoreState) (freshId freshTs cid : String),
        st.conversations.filter (fun c => !(c.id == cid)) = [] →
          (deleteConversation freshId freshTs cid st).conversations =
            [createInitialConversation freshId freshTs]
          ∧ (deleteConversation freshId freshTs cid st).activeConversationId =
              freshId
          ∧ (createInitialConversation freshId freshTs).units = []) := by
  constructor
  · intro tc dt getChunks op st h
    cases op with
    | createConversation newId ts title baseUnits parent forked =>
        simp [applyOp, createConversation]
    | deleteConversation freshId freshTs cid =>
        show (deleteConversation freshId freshTs cid st).conversations ≠ []
        unfold deleteConversation
        by_cases hrem : st.conversations.filter (fun c => !(c.id == cid)) = []
        · rw [if_pos hrem]; simp
        · rw [if_neg hrem]; exact hrem
    | renameConversation cid nextTitle =>
        show (renameConversation cid nextTitle st).conversations ≠ []
        unfold renameConversation
        simpa using h
    | setActiveConversation cid => exact h
    | addUnit u => exact updateConversationAt_ne_nil h _ _
    | togglePin id => exact updateConversationAt_ne_nil h _ _
    | toggleRemoved id => exact updateConversationAt_ne_nil h _ _
    | updateUnit id newContent => exact updateConversationAt_ne_nil h _ _
    | insertAssistantAfter newUnitId ts cid afterUnitId content =>
        show (insertAssistantAfter newUnitId ts cid afterUnitId content
          st).conversations ≠ []
        unfold insertAssistantAfter
        split
        · exact h
        · split
          · exact h
          · split
            · exact h
            · exact set_ne_nil h _ _
    | updateUnitInConversation cid unitId newContent =>
        exact updateConversationAt_ne_nil h _ _
    | trimAfter cid unitId =>
        show (trimAfter cid unitId st).conversations ≠ []
        unfold trimAfter
        split
        · exact h
        · split
          · exact h
          · split
            · exact h
            · exact set_ne_nil h _ _
    | branchFrom newId ts cid unitId title =>
        exact branchFrom_conversations_ne_nil h newId ts cid unitId title
    | openEditModal cid unitId newContent => exact h
    | closeEditModal => exact h
    | applyEditDoNothing =>
        show (applyEditDoNothing st).conversations ≠ []
        unfold applyEditDoNothing
        split
        · exact h
        · split
          · exact h
          · split
            · exact h
            · exact set_ne_nil h _ _
    | applyEditTrim =>
        show (applyEditTrim st).conversations ≠ []
        unfold applyEditTrim
        split
        · exact h
        · split
          · exact h
          · split
            · exact h
            · exact set_ne_nil h _ _
    | applyEditBranch newId ts title =>
        show (applyEditBranch newId ts title st).conversations ≠ []
        unfold applyEditBranch
        split
        · exact h
        · rename_i modal heq
          have hp : (applyEditBranchPersist modal st).conversations ≠ [] := by
            unfold applyEditBranchPersist
            split
            · exact h
            · split
              · exact h
              · exact set_ne_nil h _ _
          exact branchFrom_conversations_ne_nil hp newId ts _ _ title
    | openRemoveModal cid unitId => exact h
    | closeRemoveModal => exact h
    | applyRemoveDoNothing =>
        show (applyRemoveDoNothing st).conversations ≠ []
        unfold applyRemoveDoNothing
        split
        · exact h
        · split
          · exact h
          · split
            · exact h
            · exact set_ne_nil h _ _
    | applyRemoveTrim =>
        show (applyRemoveTrim st).conversations ≠ []
        unfold applyRemoveTrim
        split
        · exact h
        · split
          · exact h
          · split
            · exact h
            · exact set_ne_nil h _ _
    | applyRemoveBranch newId ts title =>
        show (applyRemoveBranch newId ts title st).conversations ≠ []
        unfold applyRemoveBranch
        split
        · exact h
        · rename_i modal heq
          have hp : (applyRemoveBranchPersist modal st).conversations ≠ [] := by
            unfold applyRemoveBranchPersist
            split
            · exact h
            · split
              · exact h
              · exact set_ne_nil h _ _
          exact branchFrom_conversations_ne_nil hp newId ts _ _ title
    | clearRegenerationRequest => exact h
    | setConversationAttachmentSelection cid ids =>
        show (setConversationAttachmentSelection cid ids st).conversations ≠ []
        unfold setConversationAttachmentSelection
        split
        · exact h
        · exact updateConversationAt_ne_nil h _ _
    | recomputeTokenTotals cid upToUnitId =>
        show (recomputeTokenTotals tc dt getChunks cid upToUnitId
          st).conversations ≠ []
        unfold recomputeTokenTotals
        split
        · exact h
        · exact updateConversationAt_ne_nil h _ _
    | assembleMessages cid upToUnitId =>
        show (assembleMessages tc dt getChunks cid upToUnitId
          st).2.conversations ≠ []
        unfold assembleMessages
        split
        · exact h
        · exact updateConversationAt_ne_nil h _ _
  · intro st freshId freshTs cid hrem
    unfold deleteConversation
    rw [if_pos hrem]
    exact ⟨rfl, rfl, rfl⟩

/-- Witness for C4: deleting the only conversation of a concrete store. -/
theorem store_never_zero_conversations_witness :
    (deleteConversation "f1" "t1" "c1"
      { conversations := [createInitialConversation "c1" "t0"],
        activeConversationId := "c1", editModal := none, removeModal := none,
        regenerationRequest := none }).conversations =
      [createInitialConversation "f1" "t1"]
    ∧ (deleteConversation "f1" "t1" "c1"
      { conversations := [createInitialConversation "c1" "t0"],
        activeConversationId := "c1", editModal := none, removeModal := none,
        regenerationRequest := none }).activeConversationId = "f1"
    ∧ (createInitialConversation "f1" "t1").units = [] :=
  store_never_zero_conversations.2
    { conversations := [createInitialConversation "c1" "t0"],
      activeConversationId := "c1", editModal := none, removeModal := none,
      regenerationRequest := none } "f1" "t1" "c1" (by decide)

/-! ### C5: no unit both pinned and removed -/

def UnitOk (u : ContextUnit) : Prop := ¬(u.pinned = true ∧ u.removed = true)

def StoreUnitsOk (st : StoreState) : Prop :=
  ∀ c ∈ st.conversations, ∀ u ∈ c.units, UnitOk u

/-- Side conditions under which an operation preserves the pin/removed
invariant: injected units must satisfy it, and `togglePin` must not target a
removed unit (the source has no such guard, see the counterexample). -/
def PinGuard (op : StoreOp) (st : StoreState) : Prop :=
  match op with
  | StoreOp.addUnit u => UnitOk u
  | StoreOp.createConversation _ _ _ baseUnits _ _ => ∀ u ∈ baseUnits, UnitOk u
  | StoreOp.togglePin id =>
      ∀ c ∈ st.conversations, ∀ u ∈ c.units, u.id = id → u.removed = false
  | _ => True

theorem mem_updateConversationAt {convs : List Conversation} {cid : String}
    {f : Conversation → Conversation} {c' : Conversation}
    (h : c' ∈ updateConversationAt convs cid f) :
    c' ∈ convs ∨ ∃ c ∈ convs, c' = f c := by
  unfold updateConversationAt at h
  split at h
  · exact Or.inl h
  · split at h
    · exact Or.inl h
    · rename_i idx heq c hget
      rcases List.mem_or_eq_of_mem_set h with hc | hc
      · exact Or.inl hc
      · exact Or.inr ⟨c, List.get?_mem hget, hc⟩

theorem unitsOk_updateAt {convs : List Conversation} {cid : String}
    {f : Conversation → Conversation}
    (hOK : ∀ c ∈ convs, ∀ u ∈ c.units, UnitOk u)
    (hf : ∀ c ∈ convs, (∀ u ∈ c.units, UnitOk u) → ∀ u ∈ (f c).units, UnitOk u) :
    ∀ c' ∈ updateConversationAt convs cid f, ∀ u ∈ c'.units, UnitOk u := by
  intro c' hc'
  rcases mem_updateConversationAt hc' with hc | ⟨c, hc, rfl⟩
  · exact hOK c' hc
  · exact hf c hc (hOK c hc)

theorem unitsOk_set {convs : List Conversation} {idx : Nat}
    {newc : Conversation} (hOK : ∀ c ∈ convs, ∀ u ∈ c.units, UnitOk u)
    (hnew : ∀ u ∈ newc.units, UnitOk u) :
    ∀ c' ∈ convs.set idx newc, ∀ u ∈ c'.units, UnitOk u := by
  intro c' hc'
  rcases List.mem_or_eq_of_mem_set hc' with hc | hc
  · exact hOK c' hc
  · exact hc ▸ hnew

theorem unitOk_togglePin_map {units : List ContextUnit} {id : String}
    (hOK : ∀ u ∈ units, UnitOk u)
    (hguard : ∀ u ∈ units, u.id = id → u.removed = false) :
    ∀ u' ∈ units.map (togglePinIfMatch id), UnitOk u' := by
  intro u' hu'
  obtain ⟨u, hu, rfl⟩ := List.mem_map.mp hu'
  unfold togglePinIfMatch
  by_cases hid : u.id == id
  · rw [if_pos hid]
    have hrem : u.removed = false := hguard u hu (by simpa using hid)
    intro hcon
    rw [show (togglePinUnit u).removed = u.removed from rfl, hrem] at hcon
    cases hcon.2
  · rw [if_neg hid]
    exact hOK u hu

theorem unitOk_toggleRemoved_map {units : List ContextUnit} {id : String}
    (hOK : ∀ u ∈ units, UnitOk u) :
    ∀ u' ∈ units.map (toggleRemovedIfMatch id), UnitOk u' := by
  intro u' hu'
  obtain ⟨u, hu, rfl⟩ := List.mem_map.mp hu'
  unfold toggleRemovedIfMatch
  by_cases hid : u.id == id
  · rw [if_pos hid]
    unfold toggleRemovedUnit UnitOk
    cases hr : u.removed
    · simp [hr]
    · simp [hr]
  · rw [if_neg hid]
    exact hOK u hu

theorem unitOk_editContent_map {units : List ContextUnit}
    {unitId newContent : String} (hOK : ∀ u ∈ units, UnitOk u) :
    ∀ u' ∈ units.map (editUnitContent unitId newContent), UnitOk u' := by
  intro u' hu'
  obtain ⟨u, hu, rfl⟩ := List.mem_map.mp hu'
  unfold editUnitContent
  by_cases hid : u.id == unitId
  · rw [if_pos hid]
    intro hcon
    exact hOK u hu ⟨hcon.1, hcon.2⟩
  · rw [if_neg hid]
    exact hOK u hu

theorem unitOk_tombstone_map {units : List ContextUnit} {unitId : String}
    (hOK : ∀ u ∈ units, UnitOk u) :
    ∀ u' ∈ units.map (removeUnitTombstone unitId), UnitOk u' := by
  intro u' hu'
  obtain ⟨u, hu, rfl⟩ := List.mem_map.mp hu'
  unfold removeUnitTombstone
  by_cases hid : u.id == unitId
  · rw [if_pos hid]
    intro hcon
    cases hcon.1
  · rw [if_neg hid]
    exact hOK u hu

theorem unitOk_take {units : List ContextUnit} (hOK : ∀ u ∈ units, UnitOk u)
    (n : Nat) : ∀ u ∈ units.take n, UnitOk u :=
  fun u hu => hOK u (List.mem_of_mem_take hu)

theorem unitOk_prefixUpTo {units : List ContextUnit}
    (hOK : ∀ u ∈ units, UnitOk u) (unitId : String) :
    ∀ u ∈ unitPrefixUpTo units unitId, UnitOk u := by
  unfold unitPrefixUpTo
  split
  · exact hOK
  · exact unitOk_take hOK _

theorem unitOk_spliceAfter {units : List ContextUnit}
    (hOK : ∀ u ∈ units, UnitOk u) (i : Nat) {u0 : ContextUnit}
    (h0 : UnitOk u0) : ∀ u ∈ spliceAfter units i u0, UnitOk u := by
  intro u hu
  unfold spliceAfter at hu
  rcases List.mem_append.mp hu with hx | hx
  · rcases List.mem_append.mp hx with hy | hy
    · exact hOK u (List.mem_of_mem_take hy)
    · rw [List.mem_singleton.mp hy]; exact h0
  · exact hOK u (List.mem_of_mem_drop hx)

theorem storeUnitsOk_branchFrom {st : StoreState} (h : StoreUnitsOk st)
    (newId ts cid unitId : String) (title : Option String) :
    StoreUnitsOk (branchFrom newId ts cid unitId title st).2 := by
  unfold branchFrom
  split
  · exact h
  · rename_i conv hfind
    intro c' hc'
    have hc'' : c' ∈ st.conversations ++
        [mkNewConversation newId ts title (unitPrefixUpTo conv.units unitId)
          (some cid) (some unitId)] := hc'
    rcases List.mem_append.mp hc'' with hx | hx
    · exact h c' hx
    · rw [List.mem_singleton.mp hx]
      exact unitOk_prefixUpTo
        (h conv (List.mem_of_find?_eq_some hfind)) unitId

theorem storeUnitsOk_applyEditBranchPersist {st : StoreState}
    (h : StoreUnitsOk st) (modal : EditModalState) :
    StoreUnitsOk (applyEditBranchPersist modal st) := by
  unfold applyEditBranchPersist
  split
  · exact h
  · split
    · exact h
    · rename_i idx heq c hget
      exact unitsOk_set h (unitOk_editContent_map (h c (List.get?_mem hget)))

theorem storeUnitsOk_applyRemoveBranchPersist {st : StoreState}
    (h : StoreUnitsOk st) (modal : RemoveModalState) :
    StoreUnitsOk (applyRemoveBranchPersist modal st) := by
  unfold applyRemoveBranchPersist
  split
  · exact h
  · split
    · exact h
    · rename_i idx heq c hget
      exact unitsOk_set h (unitOk_tombstone_map (h c (List.get?_mem hget)))

theorem applyOp_preserves_unitsOk (tc : String → Nat) (dt : String → Int)
    (getChunks : List String → List AttachmentChunk) (op : StoreOp)
    (st : StoreState) (hOK : StoreUnitsOk st) (hguard : PinGuard op st) :
    StoreUnitsOk (applyOp tc dt getChunks op st) := by
  cases op with
  | createConversation newId ts title baseUnits parent forked =>
      intro c' hc'
      have hc'' : c' ∈ st.conversations ++
          [mkNewConversation newId ts title baseUnits parent forked] := hc'
      rcases List.mem_append.mp hc'' with hx | hx
      · exact hOK c' hx
      · rw [List.mem_singleton.mp hx]
        exact hguard
  | deleteConversation freshId freshTs cid =>
      show StoreUnitsOk (deleteConversation freshId freshTs cid st)
      unfold deleteConversation
      by_cases hrem : st.conversations.filter (fun c => !(c.id == cid)) = []
      · rw [if_pos hrem]
        intro c' hc'
        rw [List.mem_singleton.mp hc']
        intro u hu
        cases hu
      · rw [if_neg hrem]
        intro c' hc'
        exact hOK c' (List.mem_of_mem_filter hc')
  | renameConversation cid nextTitle =>
      intro c' hc'
      obtain ⟨c, hc, rfl⟩ := List.mem_map.mp hc'
      unfold renameConversationMap
      by_cases hid : c.id == cid
      · rw [if_pos hid]
        exact hOK c hc
      · rw [if_neg hid]
        exact hOK c hc
  | setActiveConversation cid => exact hOK
  | addUnit u =>
      refine unitsOk_updateAt hOK ?_
      intro c _ hcOK u' hu'
      rcases List.mem_append.mp hu' with hx | hx
      · exact hcOK u' hx
      · rw [List.mem_singleton.mp hx]
        exact hguard
  | togglePin id =>
      refine unitsOk_updateAt hOK ?_
      intro c hc hcOK
      exact unitOk_togglePin_map hcOK (hguard c hc)
  | toggleRemoved id =>
      refine unitsOk_updateAt hOK ?_
      intro c _ hcOK
      exact unitOk_toggleRemoved_map hcOK
  | updateUnit id newContent =>
      refine unitsOk_updateAt hOK ?_
      intro c _ hcOK
      exact unitOk_editContent_map hcOK
  | insertAssistantAfter newUnitId ts cid afterUnitId content =>
      show StoreUnitsOk (insertAssistantAfter newUnitId ts cid afterUnitId
        content st)
      unfold insertAssistantAfter
      split
      · exact hOK
      · split
        · exact hOK
        · split
          · exact hOK
          · rename_i conv hget x i hfind
            refine unitsOk_set hOK ?_
            exact unitOk_spliceAfter (hOK conv (List.get?_mem hget)) i
              (by intro hcon; cases hcon.1)
  | updateUnitInConversation cid unitId newContent =>
      refine unitsOk_updateAt hOK ?_
      intro c _ hcOK
      exact unitOk_editContent_map hcOK
  | trimAfter cid unitId =>
      show StoreUnitsOk (trimAfter cid unitId st)
      unfold trimAfter
      split
      · exact hOK
      · split
        · exact hOK
        · split
          · exact hOK
          · rename_i conv hget x i hfind
            exact unitsOk_set hOK (unitOk_take (hOK conv (List.get?_mem hget)) _)
  | branchFrom newId ts cid unitId title =>
      exact storeUnitsOk_branchFrom hOK newId ts cid unitId title
  | openEditModal cid unitId newContent => exact hOK
  | closeEditModal => exact hOK
  | applyEditDoNothing =>
      show StoreUnitsOk (applyEditDoNothing st)
      unfold applyEditDoNothing
      split
      · exact hOK
      · split
        · exact hOK
        · split
          · exact hOK
          · rename_i conv hget
            exact unitsOk_set hOK
              (unitOk_editContent_map (hOK conv (List.get?_mem hget)))
  | applyEditTrim =>
      show StoreUnitsOk (applyEditTrim st)
      unfold applyEditTrim
      split
      · exact hOK
      · split
        · exact hOK
        · split
          · exact hOK
          · rename_i conv hget
            exact unitsOk_set hOK
              (unitOk_prefixUpTo
                (unitOk_editContent_map (hOK conv (List.get?_mem hget))) _)
  | applyEditBranch newId ts title =>
      show StoreUnitsOk (applyEditBranch newId ts title st)
      unfold applyEditBranch
      split
      · exact hOK
      · rename_i modal heq
        exact storeUnitsOk_branchFrom
          (storeUnitsOk_applyEditBranchPersist hOK modal) newId ts _ _ title
  | openRemoveModal cid unitId => exact hOK
  | closeRemoveModal => exact hOK
  | applyRemoveDoNothing =>
      show StoreUnitsOk (applyRemoveDoNothing st)
      unfold applyRemoveDoNothing
      split
      · exact hOK
      · split
        · exact hOK
        · split
          · exact hOK
          · rename_i conv hget
            exact unitsOk_set hOK
              (unitOk_tombstone_map (hOK conv (List.get?_mem hget)))
  | applyRemoveTrim =>
      show StoreUnitsOk (applyRemoveTrim st)
      unfold applyRemoveTrim
      split
      · exact hOK
      · split
        · exact hOK
        · split
          · exact hOK
          · rename_i conv hget
            exact unitsOk_set hOK
              (unitOk_prefixUpTo
                (unitOk_tombstone_map (hOK conv (List.get?_mem hget))) _)
  | applyRemoveBranch newId ts title =>
      show StoreUnitsOk (applyRemoveBranch newId ts title st)
      unfold applyRemoveBranch
      split
      · exact hOK
      · rename_i modal heq
        exact storeUnitsOk_branchFrom
          (storeUnitsOk_applyRemoveBranchPersist hOK modal) newId ts _ _ title
  | clearRegenerationRequest => exact hOK
  | setConversationAttachmentSelection cid ids =>
      show StoreUnitsOk (setConversationAttachmentSelection cid ids st)
      unfold setConversationAttachmentSelection
      split
      · exact hOK
      · refine unitsOk_updateAt hOK ?_
        intro c _ hcOK
        exact hcOK
  | recomputeTokenTotals cid upToUnitId =>
      show StoreUnitsOk (recomputeTokenTotals tc dt getChunks cid upToUnitId st)
      unfold recomputeTokenTotals
      split
      · exact hOK
      · refine unitsOk_updateAt hOK ?_
        intro c _ hcOK
        exact hcOK
  | assembleMessages cid upToUnitId =>
      show StoreUnitsOk (assembleMessages tc dt getChunks cid upToUnitId st).2
      unfold assembleMessages
      split
      · exact hOK
      · refine unitsOk_updateAt hOK ?_
        intro c _ hcOK
        exact hcOK

def fixRemovedUnit : ContextUnit :=
  { id := "u1", type := ContextUnitType.user, content := "x", tags := [],
    pinned := false, removed := true, timestamp := "1" }

def fixStore : StoreState :=
  { conversations :=
      [{ createInitialConversation "c1" "t0" with units := [fixRemovedUnit] }],
    activeConversationId := "c1", editModal := none, removeModal := none,
    regenerationRequest := none }

/-- C5 (corrected): `togglePin` has no `removed` guard — pinning the removed
unit `u1` of a concrete store yields a unit that is both pinned and removed,
so togglePin on a removed unit is not disallowed and does not preserve the
predicate. -/
theorem togglePin_removed_cex :
    StoreUnitsOk fixStore
    ∧ ¬ StoreUnitsOk (applyOp heuristicTokenCount fixtureTime (fun _ => [])
        (StoreOp.togglePin "u1") fixStore) := by
  constructor
  · intro c hc u hu
    have hc' : c = { createInitialConversation "c1" "t0" with
        units := [fixRemovedUnit] } := List.mem_singleton.mp hc
    subst hc'
    have hu' : u = fixRemovedUnit := List.mem_singleton.mp hu
    subst hu'
    intro hcon
    cases hcon.1
  · intro hOK
    have hmem : { createInitialConversation "c1" "t0" with
        units := [togglePinUnit fixRemovedUnit] } ∈
        (applyOp heuristicTokenCount fixtureTime (fun _ => [])
          (StoreOp.togglePin "u1") fixStore).conversations := by
      decide
    have := hOK _ hmem (togglePinUnit fixRemovedUnit) (by decide)
    exact this (by decide)

/-- C5 (amended): `toggleRemoved` on a non-removed unit sets `removed` and
clears `pinned`; on a removed unit it clears `removed` and keeps the current
`pinned` (no implicit re-pin); every store operation preserves the
no-pinned-removed predicate provided injected units satisfy it and
`togglePin` is not applied to a removed unit — the source itself does not
guard `togglePin`, so this last proviso is genuine. -/
theorem pin_removed_invariant :
    (∀ u : ContextUnit, u.removed = false →
        (toggleRemovedUnit u).removed = true ∧ (toggleRemovedUnit u).pinned = false)
    ∧ (∀ u : ContextUnit, u.removed = true →
        (toggleRemovedUnit u).removed = false
        ∧ (toggleRemovedUnit u).pinned = u.pinned)
    ∧ (∀ (tc : String → Nat) (dt : String → Int)
        (getChunks : List String → List AttachmentChunk) (op : StoreOp)
        (st : StoreState), StoreUnitsOk st → PinGuard op st →
          StoreUnitsOk (applyOp tc dt getChunks op st)) := by
  refine ⟨?_, ?_, applyOp_preserves_unitsOk⟩
  · intro u hr
    unfold toggleRemovedUnit
    rw [hr]
    exact ⟨rfl, rfl⟩
  · intro u hr
    unfold toggleRemovedUnit
    rw [hr]
    exact ⟨rfl, rfl⟩

/-- Witness for C5 (amended): `toggleRemoved` restores `u1` in the concrete
store and the invariant still holds afterwards. -/
theorem pin_removed_invariant_witness :
    ((toggleRemovedUnit fixRemovedUnit).removed = false
      ∧ (toggleRemovedUnit fixRemovedUnit).pinned = fixRemovedUnit.pinned)
    ∧ StoreUnitsOk (applyOp heuristicTokenCount fixtureTime (fun _ => [])
        (StoreOp.toggleRemoved "u1") fixStore) :=
  ⟨pin_removed_invariant.2.1 fixRemovedUnit (by decide),
   pin_removed_invariant.2.2 heuristicTokenCount fixtureTime (fun _ => [])
     (StoreOp.toggleRemoved "u1") fixStore
     (by unfold StoreUnitsOk UnitOk; decide) trivial⟩

/-! ### C8: `assembleMessages` and the store frame -/

theorem set_get?_self {α : Type} {l : List α} {n : Nat} {a : α}
    (h : l.get? n = some a) : l.set n a = l := by
  apply List.ext_get?
  intro m
  by_cases hm : n = m
  · subst hm
    rw [List.get?_set_eq, h]
    rfl
  · exact List.get?_set_ne a l hm

theorem map_updateConversationAt (g : Conversation → Conversation)
    {f : Conversation → Conversation} (hgf : ∀ c, g (f c) = g c)
    (convs : List Conversation) (cid : String) :
    (updateConversationAt convs cid f).map g = convs.map g := by
  unfold updateConversationAt
  split
  · rfl
  · split
    · rfl
    · rename_i c hget
      rw [List.map_set, hgf]
      exact set_get?_self (by rw [List.get?_map, hget]; rfl)

/-- Erase the four derived token-total fields. -/
def stripTotals (c : Conversation) : Conversation :=
  { c with totalTokens := 0, totalUserTokens := 0,
           totalAssistantTokens := 0, totalAttachmentTokens := 0 }

def fixUserUnit : ContextUnit :=
  { id := "w1", type := ContextUnitType.user, content := "hello", tags := [],
    pinned := false, removed := false, timestamp := "1" }

def fixStore2 : StoreState :=
  { conversations :=
      [{ createInitialConversation "c1" "t0" with units := [fixUserUnit] }],
    activeConversationId := "c1", editModal := none, removeModal := none,
    regenerationRequest := none }

/-- C8 (corrected): `assembleMessages` is not a pure reader of the store — on
a concrete store whose totals are stale it writes the recomputed token totals
into the conversation, changing the store state. -/
theorem assembleMessages_mutates_cex :
    (assembleMessages heuristicTokenCount fixtureTime (fun _ => []) "c1" none
      fixStore2).2 ≠ fixStore2
    ∧ (assembleMessages heuristicTokenCount fixtureTime (fun _ => []) "c1" none
      fixStore2).1 = [{ role := ChatRole.user, content := "hello" }]
    ∧ ((assembleMessages heuristicTokenCount fixtureTime (fun _ => []) "c1"
      none fixStore2).2.conversations.map Conversation.totalTokens) = [2] := by
  refine ⟨by decide, by decide, by decide⟩

/-- C8 (amended): the returned message list is the pure assembly of the
addressed conversation's units (attachment chunks first); the store is left
unchanged except that the four token-total fields of the addressed
conversation are overwritten with the recomputed totals; a missing id is a
full no-op. -/
theorem assembleMessages_frame (tc : String → Nat) (dt : String → Int)
    (getChunks : List String → List AttachmentChunk) (cid : String)
    (upToUnitId : Option String) (st : StoreState) :
    (assembleMessages tc dt getChunks cid upToUnitId
        st).2.conversations.map stripTotals = st.conversations.map stripTotals
    ∧ (assembleMessages tc dt getChunks cid upToUnitId
        st).2.activeConversationId = st.activeConversationId
    ∧ (assembleMessages tc dt getChunks cid upToUnitId st).2.editModal =
        st.editModal
    ∧ (assembleMessages tc dt getChunks cid upToUnitId st).2.removeModal =
        st.removeModal
    ∧ (assembleMessages tc dt getChunks cid upToUnitId
        st).2.regenerationRequest = st.regenerationRequest
    ∧ (∀ conv, st.conversations.find? (fun c => c.id == cid) = some conv →
        (assembleMessages tc dt getChunks cid upToUnitId st).1 =
          (getChunks conv.attachmentIds).map
            (fun ch => { role := ChatRole.system, content := ch.text })
          ++ (internalAssembleWithTotals tc dt conv.units upToUnitId).messages)
    ∧ (st.conversations.find? (fun c => c.id == cid) = none →
        assembleMessages tc dt getChunks cid upToUnitId st = ([], st)) := by
  have hstrip : ∀ (t : AssembleTotals) (n : Nat) (c : Conversation),
      stripTotals (writeTotals t n c) = stripTotals c := by
    intro t n c
    rfl
  unfold assembleMessages
  split
  · rename_i hnone
    refine ⟨rfl, rfl, rfl, rfl, rfl, ?_, fun _ => rfl⟩
    intro conv hconv
    rw [hnone] at hconv
    cases hconv
  · rename_i conv hfind
    refine ⟨map_updateConversationAt stripTotals (hstrip _ _) _ _,
      rfl, rfl, rfl, rfl, ?_, ?_⟩
    · intro conv' hconv'
      rw [hfind] at hconv'
      obtain rfl : conv = conv' := Option.some.inj hconv'
      rfl
    · intro hnone
      rw [hfind] at hnone
      cases hnone

/-- Witness for C8 (amended) on the concrete store. -/
theorem assembleMessages_frame_witness :
    (assembleMessages heuristicTokenCount fixtureTime (fun _ => []) "c1" none
        fixStore2).1 =
      (((fun _ => []) : List String → List AttachmentChunk)
          ({ createInitialConversation "c1" "t0" with
              units := [fixUserUnit] }).attachmentIds).map
        (fun ch => { role := ChatRole.system, content := ch.text })
      ++ (internalAssembleWithTotals heuristicTokenCount fixtureTime
          ({ createInitialConversation "c1" "t0" with
              units := [fixUserUnit] }).units none).messages :=
  (assembleMessages_frame heuristicTokenCount fixtureTime (fun _ => []) "c1"
    none fixStore2).2.2.2.2.2.1
    { createInitialConversation "c1" "t0" with units := [fixUserUnit] }
    (by decide)

theorem sum_nonsystem_split (tc : String → Nat) :
    ∀ msgs : List ChatMessageForApi,
      ((msgs.filter (fun m => !(m.role == ChatRole.system))).map
        (fun m => tc m.content)).sum =
      ((msgs.filter (fun m => m.role == ChatRole.user)).map
        (fun m => tc m.content)).sum +
      ((msgs.filter (fun m => m.role == ChatRole.assistant)).map
        (fun m => tc m.content)).sum
  | [] => rfl
  | m :: msgs => by
      have ih := sum_nonsystem_split tc msgs
      cases hr : m.role
      · simp [List.filter_cons, hr, ih]
      · simp [List.filter_cons, hr, ih]
        omega
      · simp [List.filter_cons, hr, ih]
        omega

/-- C10: in every computed totals record `totalTokens` splits as
`totalUserTokens + totalAssistantTokens`; `totalTokens` counts exactly the
non-system-role messages (so forget notices, system/note units and attachment
chunks contribute zero); and after `recomputeTokenTotals` every conversation
is either untouched or carries consistent totals with the attachment tokens
accumulated separately from a conversation matching the requested id. -/
theorem token_totals_consistent (tc : String → Nat) (dt : String → Int) :
    (∀ (units : List ContextUnit) (upToUnitId : Option String),
      (internalAssembleWithTotals tc dt units upToUnitId).totals.totalTokens =
        (internalAssembleWithTotals tc dt units
          upToUnitId).totals.totalUserTokens +
        (internalAssembleWithTotals tc dt units
          upToUnitId).totals.totalAssistantTokens)
    ∧ (∀ (units : List ContextUnit) (upToUnitId : Option String),
      (internalAssembleWithTotals tc dt units upToUnitId).totals.totalTokens =
        (((internalAssembleWithTotals tc dt units upToUnitId).messages.filter
          (fun m => !(m.role == ChatRole.system))).map
            (fun m => tc m.content)).sum)
    ∧ (∀ (getChunks : List String → List AttachmentChunk) (cid : String)
        (upToUnitId : Option String) (st : StoreState),
        ∀ c' ∈ (recomputeTokenTotals tc dt getChunks cid upToUnitId
            st).conversations,
          c' ∈ st.conversations
          ∨ (c'.totalTokens = c'.totalUserTokens + c'.totalAssistantTokens
             ∧ ∃ conv ∈ st.conversations, (conv.id == cid) = true
                ∧ c'.totalAttachmentTokens =
                    chunkTokenSum (getChunks conv.attachmentIds))) := by
  have h1 : ∀ (units : List ContextUnit) (upToUnitId : Option String),
      (internalAssembleWithTotals tc dt units upToUnitId).totals.totalTokens =
        (internalAssembleWithTotals tc dt units
          upToUnitId).totals.totalUserTokens +
        (internalAssembleWithTotals tc dt units
          upToUnitId).totals.totalAssistantTokens := by
    intro units cut
    unfold internalAssembleWithTotals
    split
    · rfl
    · obtain ⟨e1, e2, e3⟩ := accumTotals_foldl tc
        (assembledMessages dt (sliceUpTo dt units cut)) ⟨0, 0, 0⟩
      show (List.foldl (accumTotals tc) ⟨0, 0, 0⟩ _).totalTokens = _
      rw [e1, e2, e3]
      simpa using sum_nonsystem_split tc
        (assembledMessages dt (sliceUpTo dt units cut))
  refine ⟨h1, ?_, ?_⟩
  · intro units cut
    unfold internalAssembleWithTotals
    split
    · rfl
    · obtain ⟨e1, _, _⟩ := accumTotals_foldl tc
        (assembledMessages dt (sliceUpTo dt units cut)) ⟨0, 0, 0⟩
      show (List.foldl (accumTotals tc) ⟨0, 0, 0⟩ _).totalTokens = _
      rw [e1]
      simp
  · intro getChunks cid cut st c' hc'
    unfold recomputeTokenTotals at hc'
    split at hc'
    · exact Or.inl hc'
    · rename_i conv hfind
      rcases mem_updateConversationAt hc' with hx | ⟨c, hc, rfl⟩
      · exact Or.inl hx
      · have hpred0 := List.find?_some hfind
        have hpred : (conv.id == cid) = true := hpred0
        refine Or.inr ⟨?_, conv, List.mem_of_find?_eq_some hfind, hpred, rfl⟩
        show (internalAssembleWithTotals tc dt conv.units
          cut).totals.totalTokens = _
        exact h1 conv.units cut

/-- Witness for C10 on the concrete store: after a recompute the totals of
the only conversation split correctly. -/
theorem token_totals_consistent_witness :
    { createInitialConversation "c1" "t0" with
        units := [fixUserUnit], totalTokens := 2, totalUserTokens := 2 } ∈
      (recomputeTokenTotals heuristicTokenCount fixtureTime (fun _ => []) "c1"
        none fixStore2).conversations
    ∧ ({ createInitialConversation "c1" "t0" with
        units := [fixUserUnit], totalTokens := 2, totalUserTokens := 2 } ∈
          fixStore2.conversations
      ∨ (({ createInitialConversation "c1" "t0" with
            units := [fixUserUnit], totalTokens := 2,
            totalUserTokens := 2 } : Conversation).totalTokens =
          ({ createInitialConversation "c1" "t0" with
            units := [fixUserUnit], totalTokens := 2,
            totalUserTokens := 2 } : Conversation).totalUserTokens +
          ({ createInitialConversation "c1" "t0" with
            units := [fixUserUnit], totalTokens := 2,
            totalUserTokens := 2 } : Conversation).totalAssistantTokens
         ∧ ∃ conv ∈ fixStore2.conversations, (conv.id == "c1") = true
            ∧ ({ createInitialConversation "c1" "t0" with
                units := [fixUserUnit], totalTokens := 2,
                totalUserTokens := 2 } : Conversation).totalAttachmentTokens =
                chunkTokenSum
                  (((fun _ => []) : List String → List AttachmentChunk)
                    conv.attachmentIds))) :=
  ⟨by decide,
   (token_totals_consistent heuristicTokenCount fixtureTime).2.2 (fun _ => [])
     "c1" none fixStore2 _ (by decide)⟩

/-! ## Summarizer (`buildSummarySource` / `generateSummary`)

`generateSummary` is asynchronous in the source; its effect on the addressed
conversation is modelled as one step parametrised by the fetch outcome
(`noKey` = thrown before the request, `httpError` = non-OK response, `ok` =
parsed body).  The intermediate `summaryLoading := true` write is absorbed
into the final write, which always sets `summaryLoading := false` and either
the error or the success fields — exactly the source's net effect on the
conversation.  `model` is the selected model read from the settings store. -/

def MAX_SOURCE_TOKENS : Nat := 1600

def MAX_PER_MSG_CHARS : Nat := 1200

def SUMMARY_MAX_CHARS : Nat := 8000

def SUMMARY_SCHEMA_VERSION : Nat := 1

def visibleUnits (dt : String → Int) (units : List ContextUnit) :
    List ContextUnit :=
  (sortByTime dt units).filter (fun u => !u.removed)

def systemUnitsOf (visible : List ContextUnit) : List ContextUnit :=
  visible.filter (fun u => u.type == ContextUnitType.system ||
    u.type == ContextUnitType.note)

def pinnedUnitsOf (visible : List ContextUnit) : List ContextUnit :=
  visible.filter (fun u => u.pinned)

def conversationalUnitsOf (visible : List ContextUnit) : List ContextUnit :=
  visible.filter (fun u => u.type == ContextUnitType.user ||
    u.type == ContextUnitType.assistant)

/-- `content.length > limit ? content.slice(0, limit) + '…' : content`. -/
def previewContent (content : String) : String :=
  if MAX_PER_MSG_CHARS < content.length then
    String.mk (content.data.take MAX_PER_MSG_CHARS) ++ "…"
  else content

def typeUpper : ContextUnitType → String
  | ContextUnitType.user => "USER"
  | ContextUnitType.assistant => "ASSISTANT"
  | ContextUnitType.system => "SYSTEM"
  | ContextUnitType.note => "NOTE"

/-- The budget-loop line `${u.type.toUpperCase()}: ${preview}`. -/
def recentLine (u : ContextUnit) : String :=
  typeUpper u.type ++ ": " ++ previewContent u.content

/-- The backward walk over conversational units: skip pinned, stop (break)
when the budget is exhausted.  The input is already reversed (most recent
first); `budget - cost < 0` is `budget < cost` on the non-negative budget. -/
def recentWalk (tc : String → Nat) : List ContextUnit → Nat → List ContextUnit
  | [], _ => []
  | u :: rest, budget =>
      if u.pinned then recentWalk tc rest budget
      else if budget < tc (recentLine u) then []
      else u :: recentWalk tc rest (budget - tc (recentLine u))

def recentUnitsOf (tc : String → Nat) (conversational : List ContextUnit) :
    List ContextUnit :=
  (recentWalk tc conversational.reverse MAX_SOURCE_TOKENS).reverse

/-- The `fmt` closure (note renders as SYSTEM here). -/
def fmtUnit (u : ContextUnit) : String :=
  (if u.type == ContextUnitType.note then "SYSTEM" else typeUpper u.type) ++
    ": " ++ previewContent u.content

/-- The metadata block (empty entries filtered out, as `filter(Boolean)`). -/
def metaLines (model : String) (conv : Conversation) : List String :=
  (["Title: " ++ conv.title,
    "CreatedAt: " ++ conv.createdAt,
    (match conv.parentConversationId with
     | none => ""
     | some p => "ParentConversationId: " ++ p),
    (match conv.forkedFromUnitId with
     | none => ""
     | some f => "ForkedFromUnitId: " ++ f),
    "SelectedModel: " ++ model]).filter (· ≠ "")

def summarySections (tc : String → Nat) (dt : String → Int) (model : String)
    (conv : Conversation) : List String :=
  (if (metaLines model conv).length ≠ 0 then
    ["=== Metadata ==="] ++ metaLines model conv else [])
  ++ (if (systemUnitsOf (visibleUnits dt conv.units)).length ≠ 0 then
    ["=== System Messages ==="] ++
      (systemUnitsOf (visibleUnits dt conv.units)).map fmtUnit else [])
  ++ (if (pinnedUnitsOf (visibleUnits dt conv.units)).length ≠ 0 then
    ["=== Pinned ==="] ++
      (pinnedUnitsOf (visibleUnits dt conv.units)).map fmtUnit else [])
  ++ (if (recentUnitsOf tc (conversationalUnitsOf (visibleUnits dt
        conv.units))).length ≠ 0 then
    ["=== Recent Context ==="] ++
      (recentUnitsOf tc (conversationalUnitsOf (visibleUnits dt
        conv.units))).map fmtUnit else [])

/-- `joined.slice(-MAX_CHARS)`: keep the most recent tail. -/
def summaryTextOf (tc : String → Nat) (dt : String → Int) (model : String)
    (conv : Conversation) : String :=
  if SUMMARY_MAX_CHARS <
      (String.intercalate "\n" (summarySections tc dt model conv)).length then
    String.mk ((String.intercalate "\n"
      (summarySections tc dt model conv)).data.drop
      ((String.intercalate "\n" (summarySections tc dt model conv)).length -
        SUMMARY_MAX_CHARS))
  else String.intercalate "\n" (summarySections tc dt model conv)

/-- The cache key: schema version, visible count, last visible timestamp,
section counts and the title. -/
def summaryCacheKeyOf (tc : String → Nat) (dt : String → Int)
    (conv : Conversation) : String :=
  String.intercalate "|"
    ["v" ++ toString SUMMARY_SCHEMA_VERSION,
     toString (visibleUnits dt conv.units).length,
     (((visibleUnits dt conv.units).getLast?).map
       (fun u => u.timestamp)).getD "",
     toString (systemUnitsOf (visibleUnits dt conv.units)).length,
     toString (pinnedUnitsOf (visibleUnits dt conv.units)).length,
     toString (recentUnitsOf tc (conversationalUnitsOf (visibleUnits dt
       conv.units))).length,
     conv.title]

def summaryHasContent (tc : String → Nat) (dt : String → Int)
    (conv : Conversation) : Bool :=
  decide (0 < (conversationalUnitsOf (visibleUnits dt conv.units)).length)
  || decide (0 < (systemUnitsOf (visibleUnits dt conv.units)).length)
  || decide (0 < (pinnedUnitsOf (visibleUnits dt conv.units)).length)

structure SummarySource where
  text : String
  cacheKey : String
  hasContent : Bool
deriving DecidableEq

/-- `buildSummarySource` (`useContextStore.ts`). -/
def buildSummarySource (tc : String → Nat) (dt : String → Int)
    (model : String) (conv : Conversation) : SummarySource :=
  { text := summaryTextOf tc dt model conv,
    cacheKey := summaryCacheKeyOf tc dt conv,
    hasContent := summaryHasContent tc dt conv }

inductive FetchOutcome
  | noKey
  | httpError (status : Nat)
  | ok (body : String)
deriving DecidableEq

/-- The no-content early write (`summary: ''`, fresh key and timestamp). -/
def writeSummaryEmpty (conv : Conversation) (cacheKey now : String) :
    Conversation :=
  { conv with summary := "", summaryUpdatedAt := now,
              summaryLoading := false, summaryError := "",
              summaryCacheKey := cacheKey,
              lastSummarySchemaVersion := SUMMARY_SCHEMA_VERSION }

/-- The success write (`summaryText || 'Summary unavailable.'`). -/
def writeSummarySuccess (conv : Conversation) (body cacheKey now : String) :
    Conversation :=
  { conv with summary := if jsTrim body = "" then "Summary unavailable."
                          else jsTrim body,
              summaryUpdatedAt := now, summaryLoading := false,
              summaryError := "", summaryCacheKey := cacheKey,
              lastSummarySchemaVersion := SUMMARY_SCHEMA_VERSION }

/-- The catch write: error recorded, everything else untouched. -/
def writeSummaryFailure (conv : Conversation) (msg : String) : Conversation :=
  { conv with summaryLoading := false, summaryError := msg }

/-- The cache-hit guard of `generateSummary`. -/
def summaryCacheHit (tc : String → Nat) (dt : String → Int)
    (conv : Conversation) (force : Bool) : Bool :=
  !force && (conv.summaryCacheKey == summaryCacheKeyOf tc dt conv)
  && !(conv.summary == "")
  && (conv.lastSummarySchemaVersion == SUMMARY_SCHEMA_VERSION)

/-- One `generateSummary` run on the addressed conversation; the returned
flag records whether the network request was issued. -/
def generateSummaryStep (tc : String → Nat) (dt : String → Int)
    (model : String) (conv : Conversation) (force : Bool)
    (outcome : FetchOutcome) (now : String) : Conversation × Bool :=
  if summaryHasContent tc dt conv = false then
    (writeSummaryEmpty conv (summaryCacheKeyOf tc dt conv) now, false)
  else if summaryCacheHit tc dt conv force then (conv, false)
  else
    match outcome with
    | FetchOutcome.noKey =>
        (writeSummaryFailure conv "Missing VITE_OPENAI_API_KEY", false)
    | FetchOutcome.httpError status =>
        (writeSummaryFailure conv ("OpenAI error: " ++ toString status), true)
    | FetchOutcome.ok body =>
        (writeSummarySuccess conv body (summaryCacheKeyOf tc dt conv) now, true)

theorem summaryCacheKeyOf_congr (tc : String → Nat) (dt : String → Int)
    {c c' : Conversation} (hu : c.units = c'.units) (ht : c.title = c'.title) :
    summaryCacheKeyOf tc dt c = summaryCacheKeyOf tc dt c' := by
  unfold summaryCacheKeyOf
  rw [hu, ht]

theorem summaryHasContent_congr (tc : String → Nat) (dt : String → Int)
    {c c' : Conversation} (hu : c.units = c'.units) :
    summaryHasContent tc dt c = summaryHasContent tc dt c' := by
  unfold summaryHasContent
  rw [hu]

theorem writeSummarySuccess_summary_ne (conv : Conversation)
    (body cacheKey now : String) :
    (writeSummarySuccess conv body cacheKey now).summary ≠ "" := by
  have hsum : (writeSummarySuccess conv body cacheKey now).summary =
      (if jsTrim body = "" then "Summary unavailable." else jsTrim body) := rfl
  rw [hsum]
  by_cases hb : jsTrim body = ""
  · rw [if_pos hb]; decide
  · rw [if_neg hb]; exact hb

/-- C6 (amended): a call finding a matching cache key, a non-empty summary
and the current schema version on a conversation with content is a complete
no-op issuing no network request; and after a *successful* call, an
immediately following call with no intervening mutation is such a no-op —
so at most one request is issued when the first call succeeds (a failed call
leaves the stale cache key in place and the next call retries). -/
theorem generateSummary_cache_idempotent (tc : String → Nat)
    (dt : String → Int) (model : String) :
    (∀ (conv : Conversation) (outcome : FetchOutcome) (now : String),
      summaryHasContent tc dt conv = true →
      summaryCacheHit tc dt conv false = true →
      generateSummaryStep tc dt model conv false outcome now = (conv, false))
    ∧ (∀ (conv : Conversation) (body now : String) (outcome2 : FetchOutcome)
        (now2 : String),
      summaryHasContent tc dt conv = true →
      generateSummaryStep tc dt model
        ((generateSummaryStep tc dt model conv false (FetchOutcome.ok body)
          now).1) false outcome2 now2 =
        ((generateSummaryStep tc dt model conv false (FetchOutcome.ok body)
          now).1, false)) := by
  have h1 : ∀ (conv : Conversation) (outcome : FetchOutcome) (now : String),
      summaryHasContent tc dt conv = true →
      summaryCacheHit tc dt conv false = true →
      generateSummaryStep tc dt model conv false outcome now = (conv, false) := by
    intro conv outcome now hcontent hhit
    unfold generateSummaryStep
    rw [if_neg (by simp [hcontent]), if_pos hhit]
  refine ⟨h1, ?_⟩
  intro conv body now outcome2 now2 hcontent
  by_cases hhit : summaryCacheHit tc dt conv false = true
  · rw [h1 conv (FetchOutcome.ok body) now hcontent hhit]
    exact h1 conv outcome2 now2 hcontent hhit
  · have hfirst : generateSummaryStep tc dt model conv false
        (FetchOutcome.ok body) now =
        (writeSummarySuccess conv body (summaryCacheKeyOf tc dt conv) now,
          true) := by
      unfold generateSummaryStep
      rw [if_neg (by simp [hcontent]), if_neg hhit]
    rw [hfirst]
    have hu : (writeSummarySuccess conv body (summaryCacheKeyOf tc dt conv)
        now).units = conv.units := rfl
    have ht : (writeSummarySuccess conv body (summaryCacheKeyOf tc dt conv)
        now).title = conv.title := rfl
    have hkey : summaryCacheKeyOf tc dt (writeSummarySuccess conv body
        (summaryCacheKeyOf tc dt conv) now) = summaryCacheKeyOf tc dt conv :=
      summaryCacheKeyOf_congr tc dt hu ht
    have hcontent' : summaryHasContent tc dt (writeSummarySuccess conv body
        (summaryCacheKeyOf tc dt conv) now) = true := by
      rw [summaryHasContent_congr tc dt hu]
      exact hcontent
    have hstored : (writeSummarySuccess conv body
        (summaryCacheKeyOf tc dt conv) now).summaryCacheKey =
        summaryCacheKeyOf tc dt conv := rfl
    have hsold : (writeSummarySuccess conv body
        (summaryCacheKeyOf tc dt conv) now).lastSummarySchemaVersion =
        SUMMARY_SCHEMA_VERSION := rfl
    have hhit' : summaryCacheHit tc dt (writeSummarySuccess conv body
        (summaryCacheKeyOf tc dt conv) now) false = true := by
      unfold summaryCacheHit
      rw [hkey, hstored, hsold]
      simp [writeSummarySuccess_summary_ne conv body
        (summaryCacheKeyOf tc dt conv) now]
    exact h1 _ outcome2 now2 hcontent' hhit'

def fixConvHit : Conversation :=
  { createInitialConversation "c1" "t0" with
      units := [fixUserUnit], summary := "s",
      summaryCacheKey := "v1|1|1|0|0|1|New Conversation",
      lastSummarySchemaVersion := 1 }

/-- Witness for C6 (amended): a concrete cache-hit conversation is returned
untouched with no request. -/
theorem generateSummary_cache_idempotent_witness :
    generateSummaryStep heuristicTokenCount fixtureTime "gpt-4o-mini"
      fixConvHit false (FetchOutcome.httpError 500) "t9" =
      (fixConvHit, false) :=
  (generateSummary_cache_idempotent heuristicTokenCount fixtureTime
    "gpt-4o-mini").1 fixConvHit (FetchOutcome.httpError 500) "t9"
    (by decide) (by decide)

def fixConvMiss : Conversation :=
  { createInitialConversation "c1" "t0" with
      units := [fixUserUnit], summary := "old summary" }

def fixConvEmptyHit : Conversation :=
  { createInitialConversation "c1" "t0" with
      summary := "stale",
      summaryCacheKey := "v1|0||0|0|0|New Conversation",
      lastSummarySchemaVersion := 1 }

/-- C6 (corrected): two immediately successive calls with `force = false` and
no intervening mutation both issue a network request when the first one fails
(the stale cache key is left in place, so the second call retries); and on a
unit-less conversation satisfying the claim's three cache conditions the call
is not a no-op (the empty-content path rewrites the summary fields). -/
theorem generateSummary_cache_claim_cex :
    (generateSummaryStep heuristicTokenCount fixtureTime "gpt-4o-mini"
      fixConvMiss false (FetchOutcome.httpError 500) "t1").2 = true
    ∧ (generateSummaryStep heuristicTokenCount fixtureTime "gpt-4o-mini"
        ((generateSummaryStep heuristicTokenCount fixtureTime "gpt-4o-mini"
          fixConvMiss false (FetchOutcome.httpError 500) "t1").1) false
        (FetchOutcome.httpError 500) "t2").2 = true
    ∧ fixConvEmptyHit.summaryCacheKey =
        summaryCacheKeyOf heuristicTokenCount fixtureTime fixConvEmptyHit
    ∧ fixConvEmptyHit.summary ≠ ""
    ∧ fixConvEmptyHit.lastSummarySchemaVersion = SUMMARY_SCHEMA_VERSION
    ∧ (generateSummaryStep heuristicTokenCount fixtureTime "gpt-4o-mini"
        fixConvEmptyHit false (FetchOutcome.httpError 500) "t1").1 ≠
        fixConvEmptyHit := by
  exact ⟨by decide, by decide, by decide, by decide, by decide, by decide⟩

/-! ### C7: failure leaves the previous summary in place -/

def isFailureOutcome : FetchOutcome → Bool
  | FetchOutcome.ok _ => false
  | _ => true

theorem openai_error_msg_ne_empty (status : Nat) :
    ("OpenAI error: " ++ toString status) ≠ "" := by
  intro h
  have hd := congrArg String.data h
  rw [String.data_append] at hd
  simp at hd

/-- C7: when the attempted refresh fails (missing API key or non-OK
response), the summary, its timestamp, the cache key and the stored schema
version are all left unchanged, `summaryLoading` ends `false`, and a
non-empty error string is recorded. -/
theorem generateSummary_failure_keeps_summary (tc : String → Nat)
    (dt : String → Int) (model : String) (conv : Conversation) (force : Bool)
    (outcome : FetchOutcome) (now : String)
    (hcontent : summaryHasContent tc dt conv = true)
    (hmiss : summaryCacheHit tc dt conv force = false)
    (hfail : isFailureOutcome outcome = true) :
    (generateSummaryStep tc dt model conv force outcome now).1.summary =
      conv.summary
    ∧ (generateSummaryStep tc dt model conv force outcome
        now).1.summaryUpdatedAt = conv.summaryUpdatedAt
    ∧ (generateSummaryStep tc dt model conv force outcome
        now).1.summaryCacheKey = conv.summaryCacheKey
    ∧ (generateSummaryStep tc dt model conv force outcome
        now).1.lastSummarySchemaVersion = conv.lastSummarySchemaVersion
    ∧ (generateSummaryStep tc dt model conv force outcome
        now).1.summaryLoading = false
    ∧ (generateSummaryStep tc dt model conv force outcome
        now).1.summaryError ≠ "" := by
  unfold generateSummaryStep
  rw [if_neg (by simp [hcontent]), if_neg (by simp [hmiss])]
  cases outcome with
  | noKey =>
      refine ⟨rfl, rfl, rfl, rfl, rfl, ?_⟩
      show ("Missing VITE_OPENAI_API_KEY" : String) ≠ ""
      decide
  | httpError status =>
      exact ⟨rfl, rfl, rfl, rfl, rfl, openai_error_msg_ne_empty status⟩
  | ok body => cases hfail

/-- Witness for C7: a failed refresh on a concrete conversation keeps the old
summary, clears loading and records an error. -/
theorem generateSummary_failure_keeps_summary_witness :
    (generateSummaryStep heuristicTokenCount fixtureTime "gpt-4o-mini"
      fixConvMiss false (FetchOutcome.httpError 500) "t1").1.summary =
      fixConvMiss.summary
    ∧ (generateSummaryStep heuristicTokenCount fixtureTime "gpt-4o-mini"
        fixConvMiss false (FetchOutcome.httpError 500) "t1").1.summaryLoading =
        false
    ∧ (generateSummaryStep heuristicTokenCount fixtureTime "gpt-4o-mini"
        fixConvMiss false (FetchOutcome.httpError 500)
        "t1").1.summaryError ≠ "" :=
  match generateSummary_failure_keeps_summary heuristicTokenCount fixtureTime
    "gpt-4o-mini" fixConvMiss false (FetchOutcome.httpError 500) "t1"
    (by decide) (by decide) (by decide) with
  | ⟨hs, _, _, _, hl, he⟩ => ⟨hs, hl, he⟩
